import Mathlib

/-!
Shallow embedding of the `ColorValue` JavaScript class (src/ColorValue.js).

JavaScript numbers are modelled by `CV.JsNum`: either `nan` (IEEE NaN) or an
exact rational.  All arithmetic reachable from the claims is exact decimal
arithmetic, so rationals are a faithful carrier; NaN propagation, the
NaN-comparison semantics (`NaN < x`, `NaN === x` are false, `NaN !== 0` is
true) and `Math.min/max/round/abs` NaN behaviour are modelled explicitly.
Infinities never arise on the modelled paths (no reachable division by zero;
`parseFloat` of a lower-cased string never yields Infinity because JavaScript
only accepts the case-sensitive spelling Infinity) and are not modelled.
-/

namespace CV

/-- A JavaScript number: NaN or an exact rational value. -/
inductive JsNum where
  | nan : JsNum
  | num : ℚ → JsNum
deriving DecidableEq, Repr

namespace JsNum

/-- Lift a binary rational operation; NaN propagates (JS semantics). -/
def lift2 (f : ℚ → ℚ → ℚ) : JsNum → JsNum → JsNum
  | num a, num b => num (f a b)
  | _, _ => nan

/-- JS `+` on numbers. -/
def add : JsNum → JsNum → JsNum := lift2 (· + ·)

/-- JS binary `-` on numbers. -/
def sub : JsNum → JsNum → JsNum := lift2 (· - ·)

/-- JS `*` on numbers. -/
def mul : JsNum → JsNum → JsNum := lift2 (· * ·)

/-- JS unary `-`. -/
def neg : JsNum → JsNum
  | num a => num (-a)
  | nan => nan

/-- JS `/`.  Division by zero yields Infinity in JS; no reachable code path
of this program divides by zero (the divisors are the nonzero literals
255, 100, 60, 2 and the guarded `delta` / `1 - |2l - 1|` of `rgbToHsl`),
so that case is mapped to `nan` here. -/
def div : JsNum → JsNum → JsNum
  | num a, num b => if b = 0 then nan else num (a / b)
  | _, _ => nan

/-- JS `<` as a Boolean: false whenever an operand is NaN. -/
def lt : JsNum → JsNum → Bool
  | num a, num b => decide (a < b)
  | _, _ => false

/-- JS `===` on numbers: false whenever an operand is NaN. -/
def steq : JsNum → JsNum → Bool
  | num a, num b => decide (a = b)
  | _, _ => false

/-- JS `Math.max` (binary): NaN if an operand is NaN. -/
def maxJ : JsNum → JsNum → JsNum
  | num a, num b => num (max a b)
  | _, _ => nan

/-- JS `Math.min` (binary): NaN if an operand is NaN. -/
def minJ : JsNum → JsNum → JsNum
  | num a, num b => num (min a b)
  | _, _ => nan

/-- JS `Math.abs`. -/
def absJ : JsNum → JsNum
  | num a => num |a|
  | nan => nan

/-- Truncation toward zero of a rational, as used by JS `%` and `ToInt32`. -/
def truncQ (q : ℚ) : ℤ := if 0 ≤ q then ⌊q⌋ else ⌈q⌉

/-- JS `%` (remainder with the sign of the dividend):
`a % n = a - n * trunc (a / n)`; NaN operand or zero modulus gives NaN. -/
def modJ : JsNum → JsNum → JsNum
  | num a, num n => if n = 0 then nan else num (a - n * truncQ (a / n))
  | _, _ => nan

/-- JS `Math.round`: `⌊x + 1/2⌋` (round half toward +∞); NaN sticks. -/
def round : JsNum → JsNum
  | num a => num (⌊a + 1 / 2⌋ : ℤ)
  | nan => nan

end JsNum

/-- Clamp a number to the [0, 1] range (source `clamp01`):
`Math.min(1, Math.max(0, value))`; NaN passes through as NaN. -/
def clamp01 (value : JsNum) : JsNum :=
  JsNum.minJ (.num 1) (JsNum.maxJ (.num 0) value)

/-! ### Character-list string primitives

The JS string operations used by the class, implemented over `List Char`
(structural recursion only, so that concrete runs reduce in the kernel). -/

/-- JS whitespace recognized by `trim` / `parseFloat` (the ASCII cases;
the inputs of interest contain no exotic Unicode spaces): space, tab,
newline, carriage return, vertical tab, form feed. -/
def isJsSpace (c : Char) : Bool :=
  c.toNat = 32 || c.toNat = 9 || c.toNat = 10 || c.toNat = 13 ||
    c.toNat = 11 || c.toNat = 12

/-- JS `String.prototype.trim` on a character list. -/
def trimChars (cs : List Char) : List Char :=
  ((cs.dropWhile isJsSpace).reverse.dropWhile isJsSpace).reverse

/-- JS `String.prototype.trim`. -/
def jsTrim (s : String) : String := ⟨trimChars s.data⟩

/-- JS `String.prototype.toLowerCase` (ASCII; the class only feeds it
format tags, hex digits and numerals). -/
def jsToLower (s : String) : String := ⟨s.data.map Char.toLower⟩

/-- `cs` starts with `p` (JS `String.prototype.startsWith`). -/
def startsWithChars : List Char → List Char → Bool
  | _, [] => true
  | [], _ :: _ => false
  | c :: cs, p :: ps => c = p && startsWithChars cs ps

/-- JS `str.replace(t, '')` with a one-character pattern: removes the
first occurrence of `t`, if any. -/
def removeFirst : List Char → Char → List Char
  | [], _ => []
  | c :: rest, t => if c = t then rest else c :: removeFirst rest t

/-- Split a character list at commas (JS `String.prototype.split(',')`):
the empty list yields one empty field. -/
def splitComma : List Char → List (List Char)
  | [] => [[]]
  | ',' :: rest => [] :: splitComma rest
  | c :: rest =>
    match splitComma rest with
    | [] => [[c]]
    | first :: others => (c :: first) :: others

/-- Value of a hexadecimal digit character (`0`-`9`, `a`-`f`, `A`-`F`). -/
def hexVal (c : Char) : Option ℕ :=
  if 48 ≤ c.toNat ∧ c.toNat ≤ 57 then some (c.toNat - 48)
  else if 97 ≤ c.toNat ∧ c.toNat ≤ 102 then some (c.toNat - 87)
  else if 65 ≤ c.toNat ∧ c.toNat ≤ 70 then some (c.toNat - 55)
  else none

/-- Accumulate the longest prefix of hex digits; `none` when no digit
has been consumed yet (the JS `parseInt` NaN case). -/
def hexPrefixVal : List Char → Option ℕ → Option ℕ
  | [], acc => acc
  | c :: rest, acc =>
    match hexVal c with
    | some d => hexPrefixVal rest (some ((acc.getD 0) * 16 + d))
    | none => acc

/-- Core of JS `parseInt(s, 16)` after sign handling: strips an optional
`0x`/`0X`, then reads the longest hex-digit prefix; NaN when empty. -/
def parseIntHexCore (cs : List Char) : JsNum :=
  let cs' :=
    match cs with
    | '0' :: 'x' :: rest => rest
    | '0' :: 'X' :: rest => rest
    | other => other
  match hexPrefixVal cs' none with
  | some v => .num v
  | none => .nan

/-- JS `parseInt(s, 16)`: leading whitespace, optional sign, then the
longest hexadecimal prefix; NaN when no digit is found. -/
def parseIntHex (s : String) : JsNum :=
  match s.data.dropWhile isJsSpace with
  | '-' :: rest => (parseIntHexCore rest).neg
  | '+' :: rest => parseIntHexCore rest
  | cs => parseIntHexCore cs

/-- Read a prefix of decimal digits: value so far, digits consumed, rest. -/
def decDigits : List Char → ℕ → ℕ → ℕ × ℕ × List Char
  | [], v, n => (v, n, [])
  | c :: rest, v, n =>
    if 48 ≤ c.toNat ∧ c.toNat ≤ 57 then
      decDigits rest (10 * v + (c.toNat - 48)) (n + 1)
    else (v, n, c :: rest)

/-- Core of JS `parseFloat` after sign handling: integer part, optional
fraction, optional exponent (an `e` with no digits is not consumed, as in
JS); `none` when no mantissa digit at all (the NaN case). -/
def parseFloatCore (cs : List Char) : Option ℚ :=
  let ipr := decDigits cs 0 0
  let fpr :=
    match ipr.2.2 with
    | '.' :: r => decDigits r 0 0
    | _ => (0, 0, ipr.2.2)
  if ipr.2.1 + fpr.2.1 = 0 then none
  else
    let mant : ℚ := (ipr.1 : ℚ) + (fpr.1 : ℚ) / (10 : ℚ) ^ fpr.2.1
    let e : ℤ :=
      match fpr.2.2 with
      | 'e' :: r =>
        (match r with
         | '-' :: r2 => (match decDigits r2 0 0 with | (ev, ne, _) => if ne = 0 then 0 else -(ev : ℤ))
         | '+' :: r2 => (match decDigits r2 0 0 with | (ev, ne, _) => if ne = 0 then 0 else (ev : ℤ))
         | _ => (match decDigits r 0 0 with | (ev, ne, _) => if ne = 0 then 0 else (ev : ℤ)))
      | 'E' :: r =>
        (match r with
         | '-' :: r2 => (match decDigits r2 0 0 with | (ev, ne, _) => if ne = 0 then 0 else -(ev : ℤ))
         | '+' :: r2 => (match decDigits r2 0 0 with | (ev, ne, _) => if ne = 0 then 0 else (ev : ℤ))
         | _ => (match decDigits r 0 0 with | (ev, ne, _) => if ne = 0 then 0 else (ev : ℤ)))
      | _ => 0
    some (mant * (10 : ℚ) ^ e)

/-- JS `parseFloat`: leading whitespace, optional sign, decimal literal
prefix; NaN when no digits.  (The case-sensitive `Infinity` spelling is
not modelled: the class only applies `parseFloat` to lower-cased or
alpha-channel strings, where it cannot produce a finite-model-relevant
difference.) -/
def parseFloat (s : String) : JsNum :=
  match s.data.dropWhile isJsSpace with
  | '-' :: rest => (match parseFloatCore rest with | some q => .num (-q) | none => .nan)
  | '+' :: rest => (match parseFloatCore rest with | some q => .num q | none => .nan)
  | cs => (match parseFloatCore cs with | some q => .num q | none => .nan)

/-! ### Regex matching

`/rgba?\(([^)]+)\)/` and `/hsla?\(([^)]+)\)/` with full backtracking
semantics: the earliest position wins; at a position, the literal with the
optional letter is tried first; the capture is the greedy nonempty run of
non-`)` characters, which must be followed by `)`. -/

/-- Chars before the first `)`, requiring that a `)` exists. -/
def scanCapture : List Char → Option (List Char)
  | [] => none
  | ')' :: _ => some []
  | c :: rest =>
    match scanCapture rest with
    | some cap => some (c :: cap)
    | none => none

/-- `([^)]+)\)` at the current position: a nonempty capture up to `)`. -/
def capturePlus (cs : List Char) : Option (List Char) :=
  match scanCapture cs with
  | some (c :: cap) => some (c :: cap)
  | _ => none

/-- Try `rgba?\(([^)]+)\)` anchored at the current position.  (When
`rgba(` matches structurally the `rgb\(` alternative is impossible at the
same position — its fourth character is `a`, not `(` — so no further
backtracking arises.) -/
def rgbAt : List Char → Option (List Char)
  | 'r' :: 'g' :: 'b' :: 'a' :: '(' :: tail => capturePlus tail
  | 'r' :: 'g' :: 'b' :: '(' :: tail => capturePlus tail
  | _ => none

/-- First match of `/rgba?\(([^)]+)\)/`, returning the capture group. -/
def rgbaCapture : List Char → Option (List Char)
  | [] => none
  | c :: rest =>
    match rgbAt (c :: rest) with
    | some cap => some cap
    | none => rgbaCapture rest

/-- Try `hsla?\(([^)]+)\)` anchored at the current position. -/
def hslAt : List Char → Option (List Char)
  | 'h' :: 's' :: 'l' :: 'a' :: '(' :: tail => capturePlus tail
  | 'h' :: 's' :: 'l' :: '(' :: tail => capturePlus tail
  | _ => none

/-- First match of `/hsla?\(([^)]+)\)/`, returning the capture group. -/
def hslaCapture : List Char → Option (List Char)
  | [] => none
  | c :: rest =>
    match hslAt (c :: rest) with
    | some cap => some cap
    | none => hslaCapture rest

/-! ### Color-space utilities (source `hslToRgb`, `rgbToHsl`) -/

/-- Convert HSL to RGB (source `hslToRgb`): hue in degrees, saturation and
lightness in percent; returns RGB values in [0, 255], `Math.round`ed. -/
def hslToRgb (h0 s0 l0 : JsNum) : JsNum × JsNum × JsNum :=
  let h := ((h0.modJ (.num 360)).add (.num 360)).modJ (.num 360)
  let s := clamp01 (s0.div (.num 100))
  let l := clamp01 (l0.div (.num 100))
  let c := ((JsNum.num 1).sub (((((JsNum.num 2).mul l).sub (.num 1))).absJ)).mul s
  let x := c.mul ((JsNum.num 1).sub ((((h.div (.num 60)).modJ (.num 2)).sub (.num 1)).absJ))
  let m := l.sub (c.div (.num 2))
  let rgb :=
    if h.lt (.num 60) then (c, x, JsNum.num 0)
    else if h.lt (.num 120) then (x, c, JsNum.num 0)
    else if h.lt (.num 180) then (JsNum.num 0, c, x)
    else if h.lt (.num 240) then (JsNum.num 0, x, c)
    else if h.lt (.num 300) then (x, JsNum.num 0, c)
    else (c, JsNum.num 0, x)
  (JsNum.round ((rgb.1.add m).mul (.num 255)),
   JsNum.round ((rgb.2.1.add m).mul (.num 255)),
   JsNum.round ((rgb.2.2.add m).mul (.num 255)))

/-- The local variables `h`, `s`, `l` computed by the source `rgbToHsl`
before its final `Math.round` calls: hue in degrees, saturation and
lightness as [0, 1] fractions. -/
def rgbToHslCore (r0 g0 b0 : JsNum) : JsNum × JsNum × JsNum :=
  let r := clamp01 (r0.div (.num 255))
  let g := clamp01 (g0.div (.num 255))
  let b := clamp01 (b0.div (.num 255))
  let maxC := r.maxJ (g.maxJ b)
  let minC := r.minJ (g.minJ b)
  let delta := maxC.sub minC
  let h :=
    if !(delta.steq (.num 0)) then
      let h0 :=
        if maxC.steq r then ((g.sub b).div delta).modJ (.num 6)
        else if maxC.steq g then ((b.sub r).div delta).add (.num 2)
        else ((r.sub g).div delta).add (.num 4)
      let h1 := h0.mul (.num 60)
      if h1.lt (.num 0) then h1.add (.num 360) else h1
    else JsNum.num 0
  let l := (maxC.add minC).div (.num 2)
  let s :=
    if delta.steq (.num 0) then JsNum.num 0
    else delta.div ((JsNum.num 1).sub ((((JsNum.num 2).mul l).sub (.num 1)).absJ))
  (h, s, l)

/-- Convert RGB to HSL (source `rgbToHsl`): RGB values in [0, 255];
returns `{h: Math.round(h), s: Math.round(s * 100), l: Math.round(l * 100)}`,
hue in degrees, saturation and lightness in percent. -/
def rgbToHsl (r0 g0 b0 : JsNum) : JsNum × JsNum × JsNum :=
  let core := rgbToHslCore r0 g0 b0
  (core.1.round, (core.2.1.mul (.num 100)).round, (core.2.2.mul (.num 100)).round)

/-- Normalize alpha input to a float between 0 and 1 (source
`normalizeAlpha`): parse strings with `parseFloat`; NaN (including the
`undefined` of an absent field, for which `isNaN` is true) defaults to 1;
otherwise clamp to [0, 1].  The source's call sites pass a second argument
(`normalizeAlpha(a, 255)` / `normalizeAlpha(a, 1)`), but the function is
declared with a single parameter, so JavaScript ignores that argument;
it is therefore absent here as well. -/
def normalizeAlpha (alpha : Option (JsNum ⊕ String)) : JsNum :=
  let v : JsNum :=
    match alpha with
    | some (.inr s) => parseFloat s
    | some (.inl j) => j
    | none => .nan
  match v with
  | .nan => .num 1
  | .num q => clamp01 (.num q)

/-! ### The class: canonical store, decoders, dispatcher, encoders -/

/-- The canonical store: the four instance fields `r, g, b, a` written by
`#setRGBAf`.  No other externally observable state exists on an instance. -/
structure Store where
  r : JsNum
  g : JsNum
  b : JsNum
  a : JsNum
deriving DecidableEq, Repr

/-- The error taxonomy: the `throw new Error(...)` messages of the class. -/
inductive CVError where
  | unsupportedFormat
  | invalidHex
  | invalidCSSRGB
  | invalidCSSHSL
  | unknownNamedColor
deriving DecidableEq, Repr

/-- A structured record input.  A field is `some v` when the key is
present (`'r' in input`); channel values are numbers, the alpha value may
be a number or a string (the shapes `normalizeAlpha` distinguishes). -/
structure RecordInput where
  r : Option JsNum
  g : Option JsNum
  b : Option JsNum
  h : Option JsNum
  s : Option JsNum
  l : Option JsNum
  a : Option (JsNum ⊕ String)
deriving DecidableEq, Repr

/-- The supported input shapes of the dispatcher `#setFrom`: a string, a
number, an array of numbers (the source additionally checks
`every (v => typeof v === 'number')`, which holds for every element here
by construction), or a structured record. -/
inductive CVInput where
  | strIn (s : String)
  | numIn (v : JsNum)
  | arrIn (xs : List JsNum)
  | recIn (rec : RecordInput)
deriving DecidableEq, Repr

/-- `#setRGBAf`: clamp each channel into [0, 1] and store. -/
def setRGBAf (r g b a : JsNum) : Store :=
  ⟨clamp01 r, clamp01 g, clamp01 b, clamp01 a⟩

/-- `#setRGBA`: divide all four components by 255 and store.  (The source
declares a default `a = 255`, but every call site passes `a` explicitly.) -/
def setRGBA (r g b a : JsNum) : Store :=
  setRGBAf (r.div (.num 255)) (g.div (.num 255)) (b.div (.num 255)) (a.div (.num 255))

/-- `#setInteger`: ToInt32 conversion for the bitwise operators. -/
def toInt32 : JsNum → ℤ
  | .nan => 0
  | .num q =>
    let t := (JsNum.truncQ q).emod (2 ^ 32)
    if 2 ^ 31 ≤ t then t - 2 ^ 32 else t

/-- `#setInteger`: unpack a 24-bit value (`>> 16 & 0xff`, `>> 8 & 0xff`,
`& 0xff`, i.e. arithmetic shift = floor division on int32, low bits =
nonnegative remainder), divide by 255, alpha 1. -/
def setInteger (value : JsNum) : Store :=
  let i := toInt32 value
  let r := (i.fdiv (2 ^ 16)).emod 256
  let g := (i.fdiv (2 ^ 8)).emod 256
  let b := i.emod 256
  setRGBAf ((JsNum.num r).div (.num 255)) ((JsNum.num g).div (.num 255))
    ((JsNum.num b).div (.num 255)) (.num 1)

/-- `#setFloatVector`: elements 0..2 as r, g, b; element 3 as alpha,
defaulting to 1 when the array has only three elements. -/
def setFloatVector (xs : List JsNum) : Store :=
  setRGBAf (xs.getD 0 .nan) (xs.getD 1 .nan) (xs.getD 2 .nan) (xs.getD 3 (.num 1))

/-- `#setHSL`: convert through `hslToRgb` and store with `#setRGBAf`. -/
def setHSL (h s l a : JsNum) : Store :=
  let rgb := hslToRgb h s l
  setRGBAf rgb.1 rgb.2.1 rgb.2.2 a

/-- `#setHex`: strip the first `#`, then parse 3 (digit-duplicated) or 6
hex digits; any other length throws `Invalid hex format`. -/
def setHex (hexStr : String) : Except CVError Store :=
  let clean := removeFirst hexStr.data '#'
  match clean with
  | [c0, c1, c2] =>
    .ok (setRGBA (parseIntHex ⟨[c0, c0]⟩) (parseIntHex ⟨[c1, c1]⟩)
      (parseIntHex ⟨[c2, c2]⟩) (.num 255))
  | [c0, c1, c2, c3, c4, c5] =>
    .ok (setRGBA (parseIntHex ⟨[c0, c1]⟩) (parseIntHex ⟨[c2, c3]⟩)
      (parseIntHex ⟨[c4, c5]⟩) (.num 255))
  | _ => .error .invalidHex

/-- `#setCSSRGB`: regex-extract the argument list or throw
`Invalid CSS RGB format`; split at commas, `parseFloat` each trimmed part;
destructure `[r, g, b, a = 1]` (a missing channel is `undefined`, whose
division below yields NaN, modelled by the `.nan` default; the alpha
default 1 applies exactly when there are at most three parts); divide
r, g, b by 255, take alpha as is. -/
def setCSSRGB (str : String) : Except CVError Store :=
  match rgbaCapture str.data with
  | none => .error .invalidCSSRGB
  | some cap =>
    let parts := (splitComma cap).map (fun v => parseFloat ⟨trimChars v⟩)
    let r := parts.getD 0 .nan
    let g := parts.getD 1 .nan
    let b := parts.getD 2 .nan
    let a := parts.getD 3 (.num 1)
    .ok (setRGBAf (r.div (.num 255)) (g.div (.num 255)) (b.div (.num 255)) a)

/-- `#setCSSHSL`: regex-extract or throw `Invalid CSS HSL format`; split
and trim; `parseFloat` hue, saturation/100, lightness/100; alpha is parsed
when a fourth part exists, else 1 (a missing part `parseFloat`s to NaN,
as `parseFloat(undefined)` does in JS). -/
def setCSSHSL (str : String) : Except CVError Store :=
  match hslaCapture str.data with
  | none => .error .invalidCSSHSL
  | some cap =>
    let parts := (splitComma cap).map trimChars
    let h := parseFloat ⟨parts.getD 0 []⟩
    let s := (parseFloat ⟨parts.getD 1 []⟩).div (.num 100)
    let l := (parseFloat ⟨parts.getD 2 []⟩).div (.num 100)
    let a := if 3 < parts.length then parseFloat ⟨parts.getD 3 []⟩ else .num 1
    .ok (setHSL h s l a)

/-- Modelled from the spec: `#setNamed` resolves a color name through a
host canvas context (`document.createElement('canvas')`), which is not
part of the repository sources; the resolution is abstracted as an
injected `resolve` function returning the computed `fillStyle` string.
The translated failure test is the source's own:
`!computed || (computed === '#000000' && name !== 'black')`. -/
def setNamed (resolve : String → String) (name : String) : Except CVError Store :=
  let computed := resolve name
  if computed = "" ∨ (computed = "#000000" ∧ name ≠ "black") then
    .error .unknownNamedColor
  else setHex computed

/-- `#setFrom`: the format dispatcher.  Strings are trimmed and
lower-cased, then classified by leading `#` / `rgb` / `hsl` / named;
numbers go to the integer decoder; arrays of at least three numbers to the
float-vector decoder; records with all of r, g, b to the structured-RGBA
decoder, else with all of h, s, l to the structured-HSL decoder; anything
else throws `Unsupported color format`. -/
def setFrom (resolve : String → String) (input : CVInput) : Except CVError Store :=
  match input with
  | .strIn s =>
    let trimmed := jsToLower (jsTrim s)
    if startsWithChars trimmed.data ['#'] then setHex trimmed
    else if startsWithChars trimmed.data ['r', 'g', 'b'] then setCSSRGB trimmed
    else if startsWithChars trimmed.data ['h', 's', 'l'] then setCSSHSL trimmed
    else setNamed resolve trimmed
  | .numIn v => .ok (setInteger v)
  | .arrIn xs =>
    if 3 ≤ xs.length then .ok (setFloatVector xs)
    else .error .unsupportedFormat
  | .recIn rec =>
    match rec.r, rec.g, rec.b with
    | some r, some g, some b =>
      let alpha := normalizeAlpha rec.a
      .ok (setRGBA r g b alpha)
    | _, _, _ =>
      match rec.h, rec.s, rec.l with
      | some h, some s, some l =>
        let alpha := normalizeAlpha rec.a
        .ok (setHSL h s l alpha)
      | _, _, _ => .error .unsupportedFormat

/-- The constructor: `new ColorValue(input)` dispatches
`input ?? { r: 0, g: 0, b: 0, a: 1 }`; `none` models an absent, `null` or
`undefined` input. -/
def mkColorValue (resolve : String → String) (input : Option CVInput) :
    Except CVError Store :=
  setFrom resolve (input.getD (.recIn
    ⟨some (.num 0), some (.num 0), some (.num 0), none, none, none,
      some (.inl (.num 1))⟩))

/-! ### Encoders (the getters read by the claims) -/

/-- Hex digit character (lowercase), as in `Number.prototype.toString(16)`. -/
def hexDigitChar (n : ℕ) : Char :=
  if n < 10 then Char.ofNat (48 + n) else Char.ofNat (87 + n)

/-- Hex digits of a natural (fuel-structured so concrete runs reduce). -/
def hexCharsAux : ℕ → ℕ → List Char
  | 0, _ => []
  | fuel + 1, n =>
    if n < 16 then [hexDigitChar n]
    else hexCharsAux fuel (n / 16) ++ [hexDigitChar (n % 16)]

/-- `n.toString(16)` for a natural number. -/
def natToHex (n : ℕ) : List Char := hexCharsAux (n + 1) n

/-- Decimal digits of a natural (fuel-structured). -/
def decCharsAux : ℕ → ℕ → List Char
  | 0, _ => []
  | fuel + 1, n =>
    if n < 10 then [Char.ofNat (48 + n)]
    else decCharsAux fuel (n / 10) ++ [Char.ofNat (48 + n % 10)]

/-- `n.toString()` for a natural number. -/
def natToDec (n : ℕ) : List Char := decCharsAux (n + 1) n

/-- `i.toString()` for an integer. -/
def intToDec (i : ℤ) : List Char :=
  if i < 0 then '-' :: natToDec i.natAbs else natToDec i.natAbs

/-- Render a `Math.round` result for string interpolation: the argument is
always an integer (or NaN, which JS renders as the string NaN). -/
def jsNumToDec : JsNum → List Char
  | .nan => ['N', 'a', 'N']
  | .num q => intToDec (JsNum.truncQ q)

/-- `x.toString(16).padStart(2, '0')` for a `Math.round` result: the
argument is always an integer byte in the class (or NaN). -/
def hexByteStr : JsNum → List Char
  | .nan => ['N', 'a', 'N']
  | .num q =>
    let cs := (if JsNum.truncQ q < 0 then '-' :: natToHex (JsNum.truncQ q).natAbs
      else natToHex (JsNum.truncQ q).natAbs)
    List.replicate (2 - cs.length) '0' ++ cs

/-- `x.toFixed(3)` for a clamped alpha in [0, 1) (the only use site,
guarded by `this.a < 1`): three decimal places, rounded. -/
def toFixed3 : JsNum → List Char
  | .nan => ['N', 'a', 'N']
  | .num q =>
    let n : ℤ := ⌊q * 1000 + 1 / 2⌋
    intToDec (n.fdiv 1000) ++ '.' ::
      (List.replicate (3 - (natToDec (n.emod 1000).natAbs).length) '0' ++
        natToDec (n.emod 1000).natAbs)

/-- The `Hex()` getter: `#` plus the three channels scaled to bytes,
two lowercase hex digits each. -/
def Hex (st : Store) : String :=
  ⟨'#' :: (hexByteStr (JsNum.round (st.r.mul (.num 255))) ++
    hexByteStr (JsNum.round (st.g.mul (.num 255))) ++
    hexByteStr (JsNum.round (st.b.mul (.num 255))))⟩

/-- The `CSSHSL()` getter: converts the canonical channels through
`rgbToHsl` (passing the [0,1] channels where `rgbToHsl` divides by 255),
then rounds `h`, `s * 100`, `l * 100` for interpolation; `hsla(...)` with
`toFixed(3)` alpha when `this.a < 1`, else `hsl(...)`. -/
def CSSHSL (st : Store) : String :=
  let hsl := rgbToHsl st.r st.g st.b
  let hStr := jsNumToDec (JsNum.round hsl.1)
  let sStr := jsNumToDec (JsNum.round (hsl.2.1.mul (.num 100)))
  let lStr := jsNumToDec (JsNum.round (hsl.2.2.mul (.num 100)))
  if st.a.lt (.num 1) then
    ⟨"hsla(".data ++ hStr ++ ", ".data ++ sStr ++ "%, ".data ++ lStr ++
      "%, ".data ++ toFixed3 st.a ++ ")".data⟩
  else
    ⟨"hsl(".data ++ hStr ++ ", ".data ++ sStr ++ "%, ".data ++ lStr ++ "%)".data⟩

/-- The `CSSRGB()` getter: byte-rounded channels; `rgba(...)` with
`toFixed(3)` alpha when `this.a < 1`, else `rgb(...)`. -/
def CSSRGB (st : Store) : String :=
  let rStr := jsNumToDec (JsNum.round (st.r.mul (.num 255)))
  let gStr := jsNumToDec (JsNum.round (st.g.mul (.num 255)))
  let bStr := jsNumToDec (JsNum.round (st.b.mul (.num 255)))
  if st.a.lt (.num 1) then
    ⟨"rgba(".data ++ rStr ++ ", ".data ++ gStr ++ ", ".data ++ bStr ++
      ", ".data ++ toFixed3 st.a ++ ")".data⟩
  else
    ⟨"rgb(".data ++ rStr ++ ", ".data ++ gStr ++ ", ".data ++ bStr ++ ")".data⟩

/-- A default resolver for concrete runs that never reach the named path. -/
def res0 : String → String := fun _ => ""

instance instDecEqExcept {ε α : Type} [DecidableEq ε] [DecidableEq α] :
    DecidableEq (Except ε α) := fun a b =>
  match a, b with
  | .ok x, .ok y =>
    if h : x = y then isTrue (by rw [h])
    else isFalse (by intro hc; cases hc; exact h rfl)
  | .error x, .error y =>
    if h : x = y then isTrue (by rw [h])
    else isFalse (by intro hc; cases hc; exact h rfl)
  | .ok _, .error _ => isFalse (by intro hc; cases hc)
  | .error _, .ok _ => isFalse (by intro hc; cases hc)

/-! ### Claim-statement vocabulary -/

/-- A channel value is a number in the closed unit interval [0, 1]
(in particular, NaN is not). -/
def inUnit : JsNum → Prop
  | .nan => False
  | .num q => 0 ≤ q ∧ q ≤ 1

instance : DecidablePred inUnit := fun v =>
  match v with
  | .nan => by unfold inUnit; exact inferInstance
  | .num _ => by unfold inUnit; exact inferInstance

/-- A value is a number within distance 1 of the integer `v`
(the ±1 tolerance of the round-trip claim; NaN never qualifies). -/
def within1 (x : JsNum) (v : ℤ) : Prop :=
  match x with
  | .nan => False
  | .num q => |q - (v : ℚ)| ≤ 1

instance (v : ℤ) : Decidable (within1 x v) :=
  match x with
  | .nan => by unfold within1; exact inferInstance
  | .num _ => by unfold within1; exact inferInstance

/-- A channel as the store holds it: NaN, or a number in [0, 1]. -/
def chanOK (v : JsNum) : Prop := v = .nan ∨ inUnit v

/-- Every stored channel is NaN or a number in [0, 1]. -/
def storeOK (st : Store) : Prop :=
  chanOK st.r ∧ chanOK st.g ∧ chanOK st.b ∧ chanOK st.a

/-- The claim's round-trip composition: RGB bytes through the source
`rgbToHsl` (rounded integer h, s%, l%) and back through `hslToRgb`. -/
def roundTrip (r g b : JsNum) : JsNum × JsNum × JsNum :=
  let hsl := rgbToHsl r g b
  hslToRgb hsl.1 hsl.2.1 hsl.2.2

/-- The amended round-trip composition: the exact (unrounded) h, s, l of
`rgbToHsl` — its local variables before the final `Math.round` calls,
with s and l scaled to the percent range `hslToRgb` expects — fed back
through `hslToRgb`. -/
def roundTripExact (r g b : JsNum) : JsNum × JsNum × JsNum :=
  let core := rgbToHslCore r g b
  hslToRgb core.1 (core.2.1.mul (.num 100)) (core.2.2.mul (.num 100))

/-! ### Claim theorems

Batteries marks the `Rat` arithmetic operations `@[irreducible]`; concrete
evaluation of the embedding by `decide` needs them unfoldable, locally. -/

section ConcreteEvaluation

attribute [local semireducible] Rat.add Rat.sub Rat.mul Rat.inv Rat.ofScientific

set_option maxRecDepth 100000

/-- Claim C2, evaluated at the failing input: constructing with an
absent/null input routes the default record `{r:0,g:0,b:0,a:1}` through
the structured-RGBA decoder, where `normalizeAlpha` clamps the alpha to
[0, 1] (its declaration ignores the scale the call site passes) and
`#setRGBA` then divides by 255 once more — so the stored alpha is 1/255,
not the claimed exact 1. -/
theorem c2_null_default_alpha_eval :
    mkColorValue res0 none = .ok ⟨.num 0, .num 0, .num 0, .num (1 / 255)⟩ ∧
      (1 / 255 : ℚ) ≠ 1 := by
  decide

/-- Claim C3, evaluated at failing inputs: for a structured record the
r, g, b channels are indeed divided by 255 and clamped, but the alpha is
first clamped to [0, 1] by `normalizeAlpha` (which ignores the intended
255 scale) and then divided by 255 by `#setRGBA`: `a = 128` stores 1/255
instead of the claimed 128/255, and an absent alpha stores 1/255 instead
of the claimed 1. -/
theorem c3_structured_alpha_eval :
    mkColorValue res0 (some (.recIn ⟨some (.num 0), some (.num 0), some (.num 0),
        none, none, none, some (.inl (.num 128))⟩)) =
      .ok ⟨.num 0, .num 0, .num 0, .num (1 / 255)⟩ ∧
      (1 / 255 : ℚ) ≠ 128 / 255 ∧
      mkColorValue res0 (some (.recIn ⟨some (.num 10), some (.num 20), some (.num 30),
        none, none, none, none⟩)) =
      .ok ⟨.num (10 / 255), .num (20 / 255), .num (30 / 255), .num (1 / 255)⟩ ∧
      (1 / 255 : ℚ) ≠ 1 := by
  decide

/-- Claim C4, evaluated at the failing input: decoding
`rgba(255, 0, 0, 0.5)` does yield Hex `#ff0000`, but the CSS-HSL encoder
feeds the canonical [0,1] channels into `rgbToHsl` (which expects [0,255]
and divides by 255 again) and multiplies the already-percent saturation
and lightness by 100 once more, producing `hsla(0, 10000%, 0%, 0.500)`
instead of the claimed `hsla(0, 100%, 50%, 0.500)`. -/
theorem c4_scenario_eval :
    (mkColorValue res0 (some (.strIn "rgba(255, 0, 0, 0.5)"))).map Hex =
        .ok "#ff0000" ∧
      (mkColorValue res0 (some (.strIn "rgba(255, 0, 0, 0.5)"))).map CSSHSL =
        .ok "hsla(0, 10000%, 0%, 0.500)" := by
  decide

/-- Claim C6: decoding the structured record `{h:0, s:100, l:50}` yields
an instance whose Hex encoder returns `#ff0000`. -/
theorem c6_hsl_record_hex :
    (mkColorValue res0 (some (.recIn ⟨none, none, none, some (.num 0),
        some (.num 100), some (.num 50), none⟩))).map Hex = .ok "#ff0000" := by
  decide

/-- Claim C5, counterexample: for the byte triple (0, 0, 2) the source
`rgbToHsl` rounds to (h, s, l) = (240, 100, 0), and `hslToRgb` maps that
back to (0, 0, 0): the blue channel differs by 2, so the claimed ±1
per-channel bound is false. -/
theorem c5_roundtrip_cex :
    roundTrip (.num 0) (.num 0) (.num 2) = (.num 0, .num 0, .num 0) ∧
      ¬ within1 (roundTrip (.num 0) (.num 0) (.num 2)).2.2 2 := by
  decide

/-- Claim C1, counterexample: the CSS-RGB decoder accepts
`rgb(x, y, z)` — the regex matches, `parseFloat` of each component is NaN,
and `clamp01` passes NaN through — so construction succeeds with all three
color channels NaN, which is not a value in [0, 1]. -/
theorem c1_invariant_cex :
    mkColorValue res0 (some (.strIn "rgb(x, y, z)")) =
        .ok ⟨.nan, .nan, .nan, .num 1⟩ ∧
      ¬ inUnit (JsNum.nan) := by
  decide

/-- Claim C7: a structured record carrying both the RGB keys (r, g, b)
and the HSL keys (h, s, l) is decoded by the structured-RGBA decoder,
because `#setFrom` checks the RGB keys first; and a (non-null, non-array)
record satisfying neither key set fails with `Unsupported color format`. -/
theorem c7_dispatch_order (resolve : String → String)
    (r g b h s l : JsNum) (a : Option (JsNum ⊕ String)) (rec2 : RecordInput)
    (hrgb : ¬ (rec2.r.isSome = true ∧ rec2.g.isSome = true ∧ rec2.b.isSome = true))
    (hhsl : ¬ (rec2.h.isSome = true ∧ rec2.s.isSome = true ∧ rec2.l.isSome = true)) :
    setFrom resolve (.recIn ⟨some r, some g, some b, some h, some s, some l, a⟩) =
        .ok (setRGBA r g b (normalizeAlpha a)) ∧
      setFrom resolve (.recIn rec2) = .error .unsupportedFormat := by
  refine ⟨rfl, ?_⟩
  obtain ⟨rr, gg, bb, hh, ss, ll, aa⟩ := rec2
  cases rr <;> cases gg <;> cases bb <;> cases hh <;> cases ss <;> cases ll <;>
    simp_all [setFrom]

/-- Witness for C7 at a concrete both-keys record and a concrete
empty record. -/
theorem c7_dispatch_order_witness :
    setFrom res0 (.recIn ⟨some (.num 1), some (.num 2), some (.num 3),
        some (.num 4), some (.num 5), some (.num 6), none⟩) =
        .ok (setRGBA (.num 1) (.num 2) (.num 3) (normalizeAlpha none)) ∧
      setFrom res0 (.recIn ⟨none, none, none, none, none, none, none⟩) =
        .error .unsupportedFormat :=
  c7_dispatch_order res0 (.num 1) (.num 2) (.num 3) (.num 4) (.num 5) (.num 6)
    none ⟨none, none, none, none, none, none, none⟩ (by decide) (by decide)

/-- Claim C10: for a string whose trimmed, lower-cased form starts with
`rgb`, construction fails iff the `rgba?(...)` pattern does not match
(and the only possible error is `Invalid CSS RGB format`); in particular
`rgb(10, 20)`, whose list has fewer than three numeric entries, raises
nothing and stores NaN for the missing blue channel. -/
theorem setFrom_rgb_dispatch (resolve : String → String) (s : String)
    (hpre : startsWithChars (jsToLower (jsTrim s)).data ['r', 'g', 'b'] = true) :
    setFrom resolve (.strIn s) = setCSSRGB (jsToLower (jsTrim s)) := by
  rw [setFrom]
  have hhash : startsWithChars (jsToLower (jsTrim s)).data ['#'] = false := by
    rcases hd : (jsToLower (jsTrim s)).data with _ | ⟨c, rest⟩
    · rw [hd] at hpre; simp [startsWithChars] at hpre
    · rw [hd] at hpre
      have hc : c = 'r' := by
        simp [startsWithChars] at hpre; exact hpre.1
      subst hc
      simp [startsWithChars]
  simp [hhash, hpre]

theorem c10_cssrgb_error_iff (resolve : String → String) (s : String)
    (hpre : startsWithChars (jsToLower (jsTrim s)).data ['r', 'g', 'b'] = true) :
    (mkColorValue resolve (some (.strIn s)) = .error .invalidCSSRGB ↔
        rgbaCapture (jsToLower (jsTrim s)).data = none) ∧
      (∀ e, mkColorValue resolve (some (.strIn s)) = .error e →
        e = .invalidCSSRGB) ∧
      mkColorValue resolve (some (.strIn "rgb(10, 20)")) =
        .ok ⟨.num (10 / 255), .num (20 / 255), .nan, .num 1⟩ := by
  have hdisp : mkColorValue resolve (some (.strIn s)) =
      setCSSRGB (jsToLower (jsTrim s)) :=
    setFrom_rgb_dispatch resolve s hpre
  have hdisp2 : mkColorValue resolve (some (.strIn "rgb(10, 20)")) =
      setCSSRGB (jsToLower (jsTrim "rgb(10, 20)")) :=
    setFrom_rgb_dispatch resolve "rgb(10, 20)" (by decide)
  refine ⟨?_, ?_, ?_⟩
  · rw [hdisp, setCSSRGB]
    rcases hc : rgbaCapture (jsToLower (jsTrim s)).data with _ | cap <;> simp
  · intro e he
    rw [hdisp, setCSSRGB] at he
    rcases hc : rgbaCapture (jsToLower (jsTrim s)).data with _ | cap <;>
      rw [hc] at he <;> simp at he
    exact he.symm
  · rw [hdisp2]
    decide

/-- Facts about a character that carries a hex digit value: the value is
at most 15 and the character is none of the control characters the parsing
pipeline branches on. -/
theorem hexVal_props {c : Char} {v : ℕ} (h : hexVal c = some v) :
    v ≤ 15 ∧ isJsSpace c = false ∧ c ≠ '-' ∧ c ≠ '+' ∧ c ≠ 'x' ∧ c ≠ 'X' ∧
      c ≠ '#' := by
  unfold hexVal at h
  split_ifs at h with h1 h2 h3 <;> injection h with hv <;>
    refine ⟨by omega, by simp [isJsSpace]; omega, ?_, ?_, ?_, ?_, ?_⟩ <;>
    rintro rfl <;> revert h1 <;> first
      | (intro h1; exact absurd h1 (by decide))
      | (intro h1; revert h2; intro h2; exact absurd h2 (by decide))
      | (intro h1; revert h3; intro h3; exact absurd h3 (by decide))

/-- `parseInt(c ++ c', 16)` on two hex digit characters. -/
theorem parseIntHex_pair {c c' : Char} {v v' : ℕ} (h : hexVal c = some v)
    (h' : hexVal c' = some v') :
    parseIntHex ⟨[c, c']⟩ = .num ((16 * v + v' : ℕ) : ℚ) := by
  obtain ⟨hle, hsp, hm, hp, hx, hX, hh⟩ := hexVal_props h
  obtain ⟨hle', hsp', hm', hp', hx', hX', hh'⟩ := hexVal_props h'
  show parseIntHex (String.mk [c, c']) = _
  unfold parseIntHex
  have hdrop : ([c, c'].dropWhile isJsSpace) = [c, c'] := by
    simp [List.dropWhile, hsp]
  rw [show (String.mk [c, c']).data = [c, c'] from rfl, hdrop]
  split
  next rest heq => exact absurd (List.cons.injEq .. ▸ heq).1 hm
  next rest heq => exact absurd (List.cons.injEq .. ▸ heq).1 hp
  next h1 h2 =>
    unfold parseIntHexCore
    have hstrip : (match [c, c'] with
        | '0' :: 'x' :: rest => rest
        | '0' :: 'X' :: rest => rest
        | other => other) = [c, c'] := by
      split
      next rest heq2 =>
        rw [List.cons.injEq, List.cons.injEq] at heq2
        exact absurd heq2.2.1 hx'
      next rest heq2 =>
        rw [List.cons.injEq, List.cons.injEq] at heq2
        exact absurd heq2.2.1 hX'
      next => rfl
    rw [hstrip]
    simp [hexPrefixVal, h, h', Option.getD, Nat.mul_comm]

/-- `removeFirst` is the identity when the character does not occur. -/
theorem removeFirst_of_not_mem {cs : List Char} {t : Char} (h : t ∉ cs) :
    removeFirst cs t = cs := by
  induction cs with
  | nil => rfl
  | cons c rest ih =>
    rw [removeFirst]
    rw [if_neg (by rintro rfl; exact h (.head _)), ih (fun hm => h (.tail _ hm))]

/-- `clamp01` is the identity on numbers already in [0, 1]. -/
theorem clamp01_of_mem {q : ℚ} (h0 : 0 ≤ q) (h1 : q ≤ 1) :
    clamp01 (.num q) = .num q := by
  simp [clamp01, JsNum.maxJ, JsNum.minJ, max_eq_right h0, min_eq_right h1]

/-- `#setRGBA` on byte-range numeric channels with alpha literal 255:
pure division by 255, alpha 1. -/
theorem setRGBA_bytes {q0 q1 q2 : ℚ} (h00 : 0 ≤ q0) (h01 : q0 ≤ 255)
    (h10 : 0 ≤ q1) (h11 : q1 ≤ 255) (h20 : 0 ≤ q2) (h21 : q2 ≤ 255) :
    setRGBA (.num q0) (.num q1) (.num q2) (.num 255) =
      ⟨.num (q0 / 255), .num (q1 / 255), .num (q2 / 255), .num 1⟩ := by
  unfold setRGBA setRGBAf
  have h255 : (0 : ℚ) < 255 := by norm_num
  rw [show JsNum.div (.num q0) (.num 255) = .num (q0 / 255) from by
      simp [JsNum.div]]
  rw [show JsNum.div (.num q1) (.num 255) = .num (q1 / 255) from by
      simp [JsNum.div]]
  rw [show JsNum.div (.num q2) (.num 255) = .num (q2 / 255) from by
      simp [JsNum.div]]
  rw [show JsNum.div (.num 255) (.num 255) = .num 1 from by
      norm_num [JsNum.div]]
  rw [clamp01_of_mem (div_nonneg h00 h255.le) ((div_le_one h255).mpr h01)]
  rw [clamp01_of_mem (div_nonneg h10 h255.le) ((div_le_one h255).mpr h11)]
  rw [clamp01_of_mem (div_nonneg h20 h255.le) ((div_le_one h255).mpr h21)]
  rw [clamp01_of_mem (by norm_num) (by norm_num)]

/-- Claim C8: the Hex decoder on a string of hex digits with an optional
leading `#`: with 3 digits each digit is duplicated into a byte
(16·d + d = 17·d); with 6 digits consecutive pairs are parsed as base-16
bytes; all resulting bytes lie in [0, 255], are divided by 255, and alpha
is fixed to 1; for any other digit count the decoder fails with
`Invalid hex format`. -/
theorem c8_hex_decoder (ds : List Char)
    (hds : ∀ c ∈ ds, (hexVal c).isSome = true) :
    (∀ c0 c1 c2 v0 v1 v2, ds = [c0, c1, c2] →
      hexVal c0 = some v0 → hexVal c1 = some v1 → hexVal c2 = some v2 →
      17 * v0 ≤ 255 ∧ 17 * v1 ≤ 255 ∧ 17 * v2 ≤ 255 ∧
      setHex ⟨'#' :: ds⟩ =
        .ok ⟨.num (((17 * v0 : ℕ) : ℚ) / 255), .num (((17 * v1 : ℕ) : ℚ) / 255),
          .num (((17 * v2 : ℕ) : ℚ) / 255), .num 1⟩ ∧
      setHex ⟨ds⟩ =
        .ok ⟨.num (((17 * v0 : ℕ) : ℚ) / 255), .num (((17 * v1 : ℕ) : ℚ) / 255),
          .num (((17 * v2 : ℕ) : ℚ) / 255), .num 1⟩) ∧
    (∀ c0 c1 c2 c3 c4 c5 v0 v1 v2 v3 v4 v5, ds = [c0, c1, c2, c3, c4, c5] →
      hexVal c0 = some v0 → hexVal c1 = some v1 → hexVal c2 = some v2 →
      hexVal c3 = some v3 → hexVal c4 = some v4 → hexVal c5 = some v5 →
      16 * v0 + v1 ≤ 255 ∧ 16 * v2 + v3 ≤ 255 ∧ 16 * v4 + v5 ≤ 255 ∧
      setHex ⟨'#' :: ds⟩ =
        .ok ⟨.num (((16 * v0 + v1 : ℕ) : ℚ) / 255),
          .num (((16 * v2 + v3 : ℕ) : ℚ) / 255),
          .num (((16 * v4 + v5 : ℕ) : ℚ) / 255), .num 1⟩ ∧
      setHex ⟨ds⟩ =
        .ok ⟨.num (((16 * v0 + v1 : ℕ) : ℚ) / 255),
          .num (((16 * v2 + v3 : ℕ) : ℚ) / 255),
          .num (((16 * v4 + v5 : ℕ) : ℚ) / 255), .num 1⟩) ∧
    (ds.length ≠ 3 → ds.length ≠ 6 →
      setHex ⟨'#' :: ds⟩ = .error .invalidHex ∧
        setHex ⟨ds⟩ = .error .invalidHex) := by
  have hno : '#' ∉ ds := by
    intro hmem
    have hs := hds '#' hmem
    rw [show hexVal '#' = none from by decide] at hs
    simp at hs
  have hclean1 : removeFirst ('#' :: ds) '#' = ds := by simp [removeFirst]
  have hclean2 : removeFirst ds '#' = ds := removeFirst_of_not_mem hno
  refine ⟨?_, ?_, ?_⟩
  · rintro c0 c1 c2 v0 v1 v2 rfl h0 h1 h2
    obtain ⟨b0, -⟩ := hexVal_props h0
    obtain ⟨b1, -⟩ := hexVal_props h1
    obtain ⟨b2, -⟩ := hexVal_props h2
    have hgoal : setRGBA (parseIntHex ⟨[c0, c0]⟩) (parseIntHex ⟨[c1, c1]⟩)
        (parseIntHex ⟨[c2, c2]⟩) (.num 255) =
        ⟨.num (((17 * v0 : ℕ) : ℚ) / 255), .num (((17 * v1 : ℕ) : ℚ) / 255),
          .num (((17 * v2 : ℕ) : ℚ) / 255), .num 1⟩ := by
      rw [parseIntHex_pair h0 h0, parseIntHex_pair h1 h1, parseIntHex_pair h2 h2]
      rw [show 16 * v0 + v0 = 17 * v0 from by ring,
        show 16 * v1 + v1 = 17 * v1 from by ring,
        show 16 * v2 + v2 = 17 * v2 from by ring]
      exact setRGBA_bytes (by positivity) (by exact_mod_cast by omega)
        (by positivity) (by exact_mod_cast by omega)
        (by positivity) (by exact_mod_cast by omega)
    refine ⟨by omega, by omega, by omega, ?_, ?_⟩
    · rw [setHex]
      rw [show (String.mk ('#' :: [c0, c1, c2])).data = '#' :: [c0, c1, c2]
        from rfl, hclean1]
      exact congrArg Except.ok hgoal
    · rw [setHex]
      rw [show (String.mk [c0, c1, c2]).data = [c0, c1, c2] from rfl, hclean2]
      exact congrArg Except.ok hgoal
  · rintro c0 c1 c2 c3 c4 c5 v0 v1 v2 v3 v4 v5 rfl h0 h1 h2 h3 h4 h5
    obtain ⟨b0, -⟩ := hexVal_props h0
    obtain ⟨b1, -⟩ := hexVal_props h1
    obtain ⟨b2, -⟩ := hexVal_props h2
    obtain ⟨b3, -⟩ := hexVal_props h3
    obtain ⟨b4, -⟩ := hexVal_props h4
    obtain ⟨b5, -⟩ := hexVal_props h5
    have hgoal : setRGBA (parseIntHex ⟨[c0, c1]⟩) (parseIntHex ⟨[c2, c3]⟩)
        (parseIntHex ⟨[c4, c5]⟩) (.num 255) =
        ⟨.num (((16 * v0 + v1 : ℕ) : ℚ) / 255),
          .num (((16 * v2 + v3 : ℕ) : ℚ) / 255),
          .num (((16 * v4 + v5 : ℕ) : ℚ) / 255), .num 1⟩ := by
      rw [parseIntHex_pair h0 h1, parseIntHex_pair h2 h3, parseIntHex_pair h4 h5]
      exact setRGBA_bytes (by positivity) (by exact_mod_cast by omega)
        (by positivity) (by exact_mod_cast by omega)
        (by positivity) (by exact_mod_cast by omega)
    refine ⟨by omega, by omega, by omega, ?_, ?_⟩
    · rw [setHex]
      rw [show (String.mk ('#' :: [c0, c1, c2, c3, c4, c5])).data =
        '#' :: [c0, c1, c2, c3, c4, c5] from rfl, hclean1]
      exact congrArg Except.ok hgoal
    · rw [setHex]
      rw [show (String.mk [c0, c1, c2, c3, c4, c5]).data =
        [c0, c1, c2, c3, c4, c5] from rfl, hclean2]
      exact congrArg Except.ok hgoal
  · intro hl3 hl6
    constructor
    · rw [setHex]
      rw [show (String.mk ('#' :: ds)).data = '#' :: ds from rfl, hclean1]
      split
      next => exact absurd rfl hl3
      next => exact absurd rfl hl6
      next => rfl
    · rw [setHex]
      rw [show (String.mk ds).data = ds from rfl, hclean2]
      split
      next => exact absurd rfl hl3
      next => exact absurd rfl hl6
      next => rfl

/-- Witness for C10 at the concrete input `rgb(10, 20)`. -/
theorem c10_cssrgb_error_iff_witness :
    (mkColorValue res0 (some (.strIn "rgb(10, 20)")) = .error .invalidCSSRGB ↔
        rgbaCapture (jsToLower (jsTrim "rgb(10, 20)")).data = none) ∧
      (∀ e, mkColorValue res0 (some (.strIn "rgb(10, 20)")) = .error e →
        e = .invalidCSSRGB) ∧
      mkColorValue res0 (some (.strIn "rgb(10, 20)")) =
        .ok ⟨.num (10 / 255), .num (20 / 255), .nan, .num 1⟩ :=
  c10_cssrgb_error_iff res0 "rgb(10, 20)" (by decide)

/-- Witness for C8 at the concrete digit list `f0a`. -/
theorem c8_hex_decoder_witness :
    17 * 15 ≤ 255 ∧ 17 * 0 ≤ 255 ∧ 17 * 10 ≤ 255 ∧
      setHex ⟨'#' :: ['f', '0', 'a']⟩ =
        .ok ⟨.num (((17 * 15 : ℕ) : ℚ) / 255), .num (((17 * 0 : ℕ) : ℚ) / 255),
          .num (((17 * 10 : ℕ) : ℚ) / 255), .num 1⟩ ∧
      setHex ⟨['f', '0', 'a']⟩ =
        .ok ⟨.num (((17 * 15 : ℕ) : ℚ) / 255), .num (((17 * 0 : ℕ) : ℚ) / 255),
          .num (((17 * 10 : ℕ) : ℚ) / 255), .num 1⟩ :=
  (c8_hex_decoder ['f', '0', 'a'] (by decide)).1 'f' '0' 'a' 15 0 10 rfl
    (by decide) (by decide) (by decide)

/-- `hexDigitChar` carries its own value, and is lowercase, not a space,
and none of the special characters of the parsing pipeline. -/
theorem hexDigitChar_props {d : ℕ} (h : d ≤ 15) :
    hexVal (hexDigitChar d) = some d ∧ isJsSpace (hexDigitChar d) = false ∧
      Char.toLower (hexDigitChar d) = hexDigitChar d ∧ hexDigitChar d ≠ '#' := by
  interval_cases d <;> exact ⟨by decide, by decide, by decide, by decide⟩

/-- Rounding a canonical channel `n / 255` back to its byte. -/
theorem round_byte {n : ℕ} (_h : n ≤ 255) :
    JsNum.round ((JsNum.num ((n : ℚ) / 255)).mul (.num 255)) = .num ((n : ℕ) : ℚ) := by
  have h1 : ((n : ℚ) / 255) * 255 = (n : ℚ) := by
    field_simp
  show JsNum.round (.num (((n : ℚ) / 255) * 255)) = _
  rw [JsNum.round, h1]
  have h2 : ⌊(n : ℚ) + 1 / 2⌋ = (n : ℤ) := by
    rw [Int.floor_eq_iff]
    constructor
    · push_cast; linarith
    · push_cast; linarith
  rw [h2]
  norm_num

/-- The two hex characters emitted for a byte. -/
theorem hexByteStr_eq {n : ℕ} (h : n ≤ 255) :
    hexByteStr (.num ((n : ℕ) : ℚ)) = [hexDigitChar (n / 16), hexDigitChar (n % 16)] := by
  have htr : JsNum.truncQ ((n : ℕ) : ℚ) = (n : ℤ) := by
    rw [JsNum.truncQ, if_pos (by positivity)]
    exact_mod_cast Int.floor_natCast n
  rw [hexByteStr, htr]
  rw [if_neg (by omega)]
  have habs : ((n : ℤ)).natAbs = n := Int.natAbs_ofNat n
  rw [habs]
  by_cases h16 : n < 16
  · rw [natToHex, hexCharsAux, if_pos h16]
    have hdiv : n / 16 = 0 := by omega
    rw [hdiv, show hexDigitChar 0 = '0' from by decide]
    simp [List.replicate, show n % 16 = n from by omega]
  · have hfuel : ∃ fuel, n + 1 = fuel + 1 + 1 := ⟨n - 1, by omega⟩
    obtain ⟨fuel, hf⟩ := hfuel
    rw [natToHex, hf, hexCharsAux, if_neg h16]
    have hq : n / 16 < 16 := by omega
    have haux : hexCharsAux (fuel + 1) (n / 16) = [hexDigitChar (n / 16)] := by
      rw [hexCharsAux, if_pos hq]
    rw [haux]
    simp

/-- `trimChars` is the identity on space-free lists. -/
theorem trimChars_of_no_space {cs : List Char}
    (h : ∀ c ∈ cs, isJsSpace c = false) : trimChars cs = cs := by
  have hdrop : ∀ ds : List Char, (∀ c ∈ ds, isJsSpace c = false) →
      ds.dropWhile isJsSpace = ds := by
    intro ds hds
    cases ds with
    | nil => rfl
    | cons c rest => rw [List.dropWhile_cons, hds c (.head _)]; rfl
  rw [trimChars, hdrop _ h, hdrop _ (fun c hc => h c (List.mem_reverse.mp hc)),
    List.reverse_reverse]

/-- The dispatcher on a `#`-prefixed string of six lowercase hex digits:
routed to the Hex decoder, which parses the three pairs. -/
theorem setFrom_hex6 (resolve : String → String) (x0 x1 x2 x3 x4 x5 : Char)
    (v0 v1 v2 v3 v4 v5 : ℕ)
    (h0 : hexVal x0 = some v0) (h1 : hexVal x1 = some v1)
    (h2 : hexVal x2 = some v2) (h3 : hexVal x3 = some v3)
    (h4 : hexVal x4 = some v4) (h5 : hexVal x5 = some v5)
    (hl0 : x0.toLower = x0) (hl1 : x1.toLower = x1) (hl2 : x2.toLower = x2)
    (hl3 : x3.toLower = x3) (hl4 : x4.toLower = x4) (hl5 : x5.toLower = x5) :
    setFrom resolve (.strIn ⟨['#', x0, x1, x2, x3, x4, x5]⟩) =
      .ok (setRGBA (.num ((16 * v0 + v1 : ℕ) : ℚ))
        (.num ((16 * v2 + v3 : ℕ) : ℚ)) (.num ((16 * v4 + v5 : ℕ) : ℚ))
        (.num 255)) := by
  obtain ⟨-, hs0, -⟩ := hexVal_props h0
  obtain ⟨-, hs1, -⟩ := hexVal_props h1
  obtain ⟨-, hs2, -⟩ := hexVal_props h2
  obtain ⟨-, hs3, -⟩ := hexVal_props h3
  obtain ⟨-, hs4, -⟩ := hexVal_props h4
  obtain ⟨-, hs5, -⟩ := hexVal_props h5
  have hstr : jsToLower (jsTrim ⟨['#', x0, x1, x2, x3, x4, x5]⟩) =
      ⟨['#', x0, x1, x2, x3, x4, x5]⟩ := by
    rw [jsTrim]
    rw [show (String.mk ['#', x0, x1, x2, x3, x4, x5]).data =
      ['#', x0, x1, x2, x3, x4, x5] from rfl]
    rw [trimChars_of_no_space ?hns]
    case hns =>
      intro c hc
      simp only [List.mem_cons, List.not_mem_nil, or_false] at hc
      rcases hc with rfl | rfl | rfl | rfl | rfl | rfl | rfl <;>
        first | decide | assumption
    rw [jsToLower]
    rw [show (String.mk ['#', x0, x1, x2, x3, x4, x5]).data =
      ['#', x0, x1, x2, x3, x4, x5] from rfl]
    refine congrArg String.mk ?_
    simp only [List.map_cons, List.map_nil]
    rw [show Char.toLower '#' = '#' from by decide, hl0, hl1, hl2, hl3, hl4, hl5]
  rw [setFrom, hstr]
  rw [show startsWithChars (String.mk ['#', x0, x1, x2, x3, x4, x5]).data ['#'] =
    true from by simp [startsWithChars]]
  rw [if_pos rfl]
  rw [setHex]
  have hclean : removeFirst (String.mk ['#', x0, x1, x2, x3, x4, x5]).data '#' =
      [x0, x1, x2, x3, x4, x5] := by
    simp [removeFirst]
  rw [hclean]
  refine congrArg Except.ok ?_
  rw [parseIntHex_pair h0 h1, parseIntHex_pair h2 h3, parseIntHex_pair h4 h5]

/-- Claim C9: for every byte triple, decoding the Hex encoding of the
canonical store of that triple restores exactly the canonical channels
`r/255, g/255, b/255` with alpha exactly 1, and those channels re-encode
(scale by 255 and round) to exactly the original bytes. -/
theorem c9_hex_roundtrip (r g b : ℕ) (hr : r ≤ 255) (hg : g ≤ 255)
    (hb : b ≤ 255) :
    mkColorValue res0 (some (.strIn (Hex ⟨.num ((r : ℚ) / 255),
        .num ((g : ℚ) / 255), .num ((b : ℚ) / 255), .num 1⟩))) =
      .ok ⟨.num ((r : ℚ) / 255), .num ((g : ℚ) / 255), .num ((b : ℚ) / 255),
        .num 1⟩ ∧
    JsNum.round ((JsNum.num ((r : ℚ) / 255)).mul (.num 255)) = .num ((r : ℕ) : ℚ) ∧
    JsNum.round ((JsNum.num ((g : ℚ) / 255)).mul (.num 255)) = .num ((g : ℕ) : ℚ) ∧
    JsNum.round ((JsNum.num ((b : ℚ) / 255)).mul (.num 255)) = .num ((b : ℕ) : ℚ) := by
  refine ⟨?_, round_byte hr, round_byte hg, round_byte hb⟩
  obtain ⟨hv0, -, hl0, -⟩ := hexDigitChar_props (show r / 16 ≤ 15 by omega)
  obtain ⟨hv1, -, hl1, -⟩ := hexDigitChar_props (show r % 16 ≤ 15 by omega)
  obtain ⟨hv2, -, hl2, -⟩ := hexDigitChar_props (show g / 16 ≤ 15 by omega)
  obtain ⟨hv3, -, hl3, -⟩ := hexDigitChar_props (show g % 16 ≤ 15 by omega)
  obtain ⟨hv4, -, hl4, -⟩ := hexDigitChar_props (show b / 16 ≤ 15 by omega)
  obtain ⟨hv5, -, hl5, -⟩ := hexDigitChar_props (show b % 16 ≤ 15 by omega)
  have hhex : Hex ⟨.num ((r : ℚ) / 255), .num ((g : ℚ) / 255),
      .num ((b : ℚ) / 255), .num 1⟩ =
      ⟨['#', hexDigitChar (r / 16), hexDigitChar (r % 16),
        hexDigitChar (g / 16), hexDigitChar (g % 16),
        hexDigitChar (b / 16), hexDigitChar (b % 16)]⟩ := by
    rw [Hex]
    rw [round_byte hr, round_byte hg, round_byte hb]
    rw [hexByteStr_eq hr, hexByteStr_eq hg, hexByteStr_eq hb]
    exact congrArg String.mk (by simp)
  rw [hhex]
  show setFrom res0 (.strIn _) = _
  rw [setFrom_hex6 res0 _ _ _ _ _ _ _ _ _ _ _ _ hv0 hv1 hv2 hv3 hv4 hv5
    hl0 hl1 hl2 hl3 hl4 hl5]
  rw [show 16 * (r / 16) + r % 16 = r from by omega,
    show 16 * (g / 16) + g % 16 = g from by omega,
    show 16 * (b / 16) + b % 16 = b from by omega]
  refine congrArg Except.ok ?_
  exact setRGBA_bytes (by positivity) (by exact_mod_cast hr)
    (by positivity) (by exact_mod_cast hg) (by positivity) (by exact_mod_cast hb)

/-- Witness for C9 at the byte triple (255, 128, 7). -/
theorem c9_hex_roundtrip_witness :
    mkColorValue res0 (some (.strIn (Hex ⟨.num ((255 : ℚ) / 255),
        .num ((128 : ℚ) / 255), .num ((7 : ℚ) / 255), .num 1⟩))) =
      .ok ⟨.num ((255 : ℚ) / 255), .num ((128 : ℚ) / 255), .num ((7 : ℚ) / 255),
        .num 1⟩ ∧
    JsNum.round ((JsNum.num ((255 : ℚ) / 255)).mul (.num 255)) =
      .num ((255 : ℕ) : ℚ) ∧
    JsNum.round ((JsNum.num ((128 : ℚ) / 255)).mul (.num 255)) =
      .num ((128 : ℕ) : ℚ) ∧
    JsNum.round ((JsNum.num ((7 : ℚ) / 255)).mul (.num 255)) =
      .num ((7 : ℕ) : ℚ) := by
  have h := c9_hex_roundtrip 255 128 7 (by omega) (by omega) (by omega)
  exact_mod_cast h

/-! ### Computation rules for `JsNum` operations on numbers -/

theorem num_add (a b : ℚ) : (JsNum.num a).add (.num b) = .num (a + b) := rfl

theorem num_sub (a b : ℚ) : (JsNum.num a).sub (.num b) = .num (a - b) := rfl

theorem num_mul (a b : ℚ) : (JsNum.num a).mul (.num b) = .num (a * b) := rfl

theorem num_abs (a : ℚ) : (JsNum.num a).absJ = .num |a| := rfl

theorem num_div {b : ℚ} (hb : b ≠ 0) (a : ℚ) :
    (JsNum.num a).div (.num b) = .num (a / b) := by
  simp [JsNum.div, hb]

theorem num_lt_true {a b : ℚ} (h : a < b) : (JsNum.num a).lt (.num b) = true := by
  simp [JsNum.lt, h]

theorem num_lt_false {a b : ℚ} (h : b ≤ a) : (JsNum.num a).lt (.num b) = false := by
  rw [JsNum.lt]
  exact decide_eq_false (not_lt.mpr h)

theorem num_steq_true {a b : ℚ} (h : a = b) :
    (JsNum.num a).steq (.num b) = true := by
  simp [JsNum.steq, h]

theorem num_steq_false {a b : ℚ} (h : a ≠ b) :
    (JsNum.num a).steq (.num b) = false := by
  rw [JsNum.steq]
  exact decide_eq_false h

/-- JS `%` on a value already inside `[0, n)`. -/
theorem num_mod_self {a n : ℚ} (h0 : 0 ≤ a) (h1 : a < n) :
    (JsNum.num a).modJ (.num n) = .num a := by
  have hn : 0 < n := lt_of_le_of_lt h0 h1
  rw [JsNum.modJ, if_neg hn.ne']
  have hd0 : 0 ≤ a / n := div_nonneg h0 hn.le
  have hd1 : a / n < 1 := (div_lt_one hn).mpr h1
  rw [JsNum.truncQ, if_pos hd0, Int.floor_eq_zero_iff.mpr ⟨hd0, hd1⟩]
  norm_num

/-- JS `%` on a value in `[n, 2n)`. -/
theorem num_mod_sub {a n : ℚ} (hn : 0 < n) (h0 : n ≤ a) (h1 : a < 2 * n) :
    (JsNum.num a).modJ (.num n) = .num (a - n) := by
  rw [JsNum.modJ, if_neg hn.ne']
  have hd0 : 1 ≤ a / n := (le_div_iff₀ hn).mpr (by linarith)
  have hd1 : a / n < 2 := (div_lt_iff₀ hn).mpr (by linarith)
  have hfl : ⌊a / n⌋ = 1 := by
    rw [Int.floor_eq_iff]
    constructor <;> push_cast <;> linarith
  rw [JsNum.truncQ, if_pos (by linarith), hfl]
  norm_num

/-- JS `%` on a value in `[2n, 3n)`. -/
theorem num_mod_sub2 {a n : ℚ} (hn : 0 < n) (h0 : 2 * n ≤ a) (h1 : a < 3 * n) :
    (JsNum.num a).modJ (.num n) = .num (a - 2 * n) := by
  rw [JsNum.modJ, if_neg hn.ne']
  have hd0 : 2 ≤ a / n := (le_div_iff₀ hn).mpr (by linarith)
  have hd1 : a / n < 3 := (div_lt_iff₀ hn).mpr (by linarith)
  have hfl : ⌊a / n⌋ = 2 := by
    rw [Int.floor_eq_iff]
    constructor <;> push_cast <;> linarith
  rw [JsNum.truncQ, if_pos (by linarith), hfl]
  push_cast
  ring_nf

/-- The hue wrap `((h % 360) + 360) % 360` is the identity on `[0, 360)`. -/
theorem hue_normalize {h : ℚ} (h0 : 0 ≤ h) (h1 : h < 360) :
    (((JsNum.num h).modJ (.num 360)).add (.num 360)).modJ (.num 360) =
      .num h := by
  rw [num_mod_self h0 h1, num_add,
    num_mod_sub (by norm_num) (by linarith) (by linarith)]
  norm_num

/-- Dividing a percent-scaled fraction by 100 and clamping restores it. -/
theorem clamp_percent {s : ℚ} (h0 : 0 ≤ s) (h1 : s ≤ 1) :
    clamp01 ((JsNum.num (s * 100)).div (.num 100)) = .num s := by
  rw [num_div (by norm_num), show s * 100 / 100 = s from by field_simp,
    clamp01_of_mem h0 h1]

/-- `hslToRgb` on the first sextant `[0, 60)`. -/
theorem hslToRgb_sector0 {h s l c x m : ℚ} (hh0 : 0 ≤ h) (hh1 : h < 60)
    (hs0 : 0 ≤ s) (hs1 : s ≤ 1) (hl0 : 0 ≤ l) (hl1 : l ≤ 1)
    (hc : c = (1 - |2 * l - 1|) * s) (hx : x = c * (h / 60))
    (hm : m = l - c / 2) :
    hslToRgb (.num h) (.num (s * 100)) (.num (l * 100)) =
      (JsNum.round (.num ((c + m) * 255)), JsNum.round (.num ((x + m) * 255)),
        JsNum.round (.num ((0 + m) * 255))) := by
  subst hx hm hc
  have ha0 : (0 : ℚ) ≤ h / 60 := by positivity
  have ha1 : h / 60 < 1 := (div_lt_one (by norm_num)).mpr hh1
  simp only [hslToRgb, hue_normalize hh0 (by linarith), clamp_percent hs0 hs1,
    clamp_percent hl0 hl1, num_div (show (60:ℚ) ≠ 0 by norm_num),
    num_div (show (2:ℚ) ≠ 0 by norm_num),
    num_mod_self ha0 (show h / 60 < 2 by linarith),
    num_mul, num_sub, num_abs, num_add, num_lt_true hh1]
  simp only [if_true]
  have habs : |h / 60 - 1| = 1 - h / 60 := by
    rw [abs_of_nonpos (by linarith)]; ring
  rw [habs]
  refine congrArg₂ Prod.mk ?_ (congrArg₂ Prod.mk ?_ ?_) <;>
    exact congrArg JsNum.round (congrArg JsNum.num (by ring))

/-- `hslToRgb` on the sextant `[60, 120)`. -/
theorem hslToRgb_sector1 {h s l c x m : ℚ} (hh0 : 60 ≤ h) (hh1 : h < 120)
    (hs0 : 0 ≤ s) (hs1 : s ≤ 1) (hl0 : 0 ≤ l) (hl1 : l ≤ 1)
    (hc : c = (1 - |2 * l - 1|) * s) (hx : x = c * (2 - h / 60))
    (hm : m = l - c / 2) :
    hslToRgb (.num h) (.num (s * 100)) (.num (l * 100)) =
      (JsNum.round (.num ((x + m) * 255)), JsNum.round (.num ((c + m) * 255)),
        JsNum.round (.num ((0 + m) * 255))) := by
  subst hx hm hc
  have ha0 : (1 : ℚ) ≤ h / 60 := by
    rw [le_div_iff₀ (by norm_num : (0:ℚ) < 60)]; linarith
  have ha1 : h / 60 < 2 := by
    rw [div_lt_iff₀ (by norm_num : (0:ℚ) < 60)]; linarith
  simp only [hslToRgb, hue_normalize (show (0:ℚ) ≤ h by linarith) (show h < 360 by linarith),
    clamp_percent hs0 hs1, clamp_percent hl0 hl1,
    num_div (show (60:ℚ) ≠ 0 by norm_num), num_div (show (2:ℚ) ≠ 0 by norm_num),
    num_mod_self (show (0:ℚ) ≤ h / 60 by linarith) ha1,
    num_mul, num_sub, num_abs, num_add, num_lt_false hh0,
    num_lt_true hh1, Bool.false_eq_true, if_false, if_true]
  have habs : |h / 60 - 1| = h / 60 - 1 := abs_of_nonneg (by linarith)
  rw [habs]
  refine congrArg₂ Prod.mk ?_ (congrArg₂ Prod.mk ?_ ?_) <;>
    exact congrArg JsNum.round (congrArg JsNum.num (by ring))

/-- `hslToRgb` on the sextant `[120, 180)`. -/
theorem hslToRgb_sector2 {h s l c x m : ℚ} (hh0 : 120 ≤ h) (hh1 : h < 180)
    (hs0 : 0 ≤ s) (hs1 : s ≤ 1) (hl0 : 0 ≤ l) (hl1 : l ≤ 1)
    (hc : c = (1 - |2 * l - 1|) * s) (hx : x = c * (h / 60 - 2))
    (hm : m = l - c / 2) :
    hslToRgb (.num h) (.num (s * 100)) (.num (l * 100)) =
      (JsNum.round (.num ((0 + m) * 255)), JsNum.round (.num ((c + m) * 255)),
        JsNum.round (.num ((x + m) * 255))) := by
  subst hx hm hc
  have ha0 : (2 : ℚ) ≤ h / 60 := by
    rw [le_div_iff₀ (by norm_num : (0:ℚ) < 60)]; linarith
  have ha1 : h / 60 < 3 := by
    rw [div_lt_iff₀ (by norm_num : (0:ℚ) < 60)]; linarith
  simp only [hslToRgb, hue_normalize (show (0:ℚ) ≤ h by linarith) (show h < 360 by linarith),
    clamp_percent hs0 hs1, clamp_percent hl0 hl1,
    num_div (show (60:ℚ) ≠ 0 by norm_num), num_div (show (2:ℚ) ≠ 0 by norm_num),
    num_mod_sub (show (0:ℚ) < 2 by norm_num) ha0
      (show h / 60 < 2 * 2 by linarith),
    num_mul, num_sub, num_abs, num_add,
    num_lt_false (show (60:ℚ) ≤ h by linarith),
    num_lt_false (show (120:ℚ) ≤ h by linarith),
    num_lt_true hh1, Bool.false_eq_true, if_false, if_true]
  have habs : |h / 60 - 2 - 1| = 3 - h / 60 := by
    rw [abs_of_nonpos (by linarith)]; ring
  rw [habs]
  refine congrArg₂ Prod.mk ?_ (congrArg₂ Prod.mk ?_ ?_) <;>
    exact congrArg JsNum.round (congrArg JsNum.num (by ring))

/-- `hslToRgb` on the sextant `[180, 240)`. -/
theorem hslToRgb_sector3 {h s l c x m : ℚ} (hh0 : 180 ≤ h) (hh1 : h < 240)
    (hs0 : 0 ≤ s) (hs1 : s ≤ 1) (hl0 : 0 ≤ l) (hl1 : l ≤ 1)
    (hc : c = (1 - |2 * l - 1|) * s) (hx : x = c * (4 - h / 60))
    (hm : m = l - c / 2) :
    hslToRgb (.num h) (.num (s * 100)) (.num (l * 100)) =
      (JsNum.round (.num ((0 + m) * 255)), JsNum.round (.num ((x + m) * 255)),
        JsNum.round (.num ((c + m) * 255))) := by
  subst hx hm hc
  have ha0 : (3 : ℚ) ≤ h / 60 := by
    rw [le_div_iff₀ (by norm_num : (0:ℚ) < 60)]; linarith
  have ha1 : h / 60 < 4 := by
    rw [div_lt_iff₀ (by norm_num : (0:ℚ) < 60)]; linarith
  simp only [hslToRgb, hue_normalize (show (0:ℚ) ≤ h by linarith) (show h < 360 by linarith),
    clamp_percent hs0 hs1, clamp_percent hl0 hl1,
    num_div (show (60:ℚ) ≠ 0 by norm_num), num_div (show (2:ℚ) ≠ 0 by norm_num),
    num_mod_sub (show (0:ℚ) < 2 by norm_num) (show (2:ℚ) ≤ h / 60 by linarith)
      (show h / 60 < 2 * 2 by linarith),
    num_mul, num_sub, num_abs, num_add,
    num_lt_false (show (60:ℚ) ≤ h by linarith),
    num_lt_false (show (120:ℚ) ≤ h by linarith),
    num_lt_false (show (180:ℚ) ≤ h by linarith),
    num_lt_true hh1, Bool.false_eq_true, if_false, if_true]
  have habs : |h / 60 - 2 - 1| = h / 60 - 3 := by
    rw [show h / 60 - 2 - 1 = h / 60 - 3 from by ring,
      abs_of_nonneg (by linarith)]
  rw [habs]
  refine congrArg₂ Prod.mk ?_ (congrArg₂ Prod.mk ?_ ?_) <;>
    exact congrArg JsNum.round (congrArg JsNum.num (by ring))

/-- `hslToRgb` on the sextant `[240, 300)`. -/
theorem hslToRgb_sector4 {h s l c x m : ℚ} (hh0 : 240 ≤ h) (hh1 : h < 300)
    (hs0 : 0 ≤ s) (hs1 : s ≤ 1) (hl0 : 0 ≤ l) (hl1 : l ≤ 1)
    (hc : c = (1 - |2 * l - 1|) * s) (hx : x = c * (h / 60 - 4))
    (hm : m = l - c / 2) :
    hslToRgb (.num h) (.num (s * 100)) (.num (l * 100)) =
      (JsNum.round (.num ((x + m) * 255)), JsNum.round (.num ((0 + m) * 255)),
        JsNum.round (.num ((c + m) * 255))) := by
  subst hx hm hc
  have ha0 : (4 : ℚ) ≤ h / 60 := by
    rw [le_div_iff₀ (by norm_num : (0:ℚ) < 60)]; linarith
  have ha1 : h / 60 < 5 := by
    rw [div_lt_iff₀ (by norm_num : (0:ℚ) < 60)]; linarith
  simp only [hslToRgb, hue_normalize (show (0:ℚ) ≤ h by linarith) (show h < 360 by linarith),
    clamp_percent hs0 hs1, clamp_percent hl0 hl1,
    num_div (show (60:ℚ) ≠ 0 by norm_num), num_div (show (2:ℚ) ≠ 0 by norm_num),
    num_mod_sub2 (show (0:ℚ) < 2 by norm_num) (show 2 * 2 ≤ h / 60 by linarith)
      (show h / 60 < 3 * 2 by linarith),
    num_mul, num_sub, num_abs, num_add,
    num_lt_false (show (60:ℚ) ≤ h by linarith),
    num_lt_false (show (120:ℚ) ≤ h by linarith),
    num_lt_false (show (180:ℚ) ≤ h by linarith),
    num_lt_false (show (240:ℚ) ≤ h by linarith),
    num_lt_true hh1, Bool.false_eq_true, if_false, if_true]
  have habs : |h / 60 - 2 * 2 - 1| = 5 - h / 60 := by
    rw [abs_of_nonpos (by linarith)]; ring
  rw [habs]
  refine congrArg₂ Prod.mk ?_ (congrArg₂ Prod.mk ?_ ?_) <;>
    exact congrArg JsNum.round (congrArg JsNum.num (by ring))

/-- `hslToRgb` on the sextant `[300, 360)`. -/
theorem hslToRgb_sector5 {h s l c x m : ℚ} (hh0 : 300 ≤ h) (hh1 : h < 360)
    (hs0 : 0 ≤ s) (hs1 : s ≤ 1) (hl0 : 0 ≤ l) (hl1 : l ≤ 1)
    (hc : c = (1 - |2 * l - 1|) * s) (hx : x = c * (6 - h / 60))
    (hm : m = l - c / 2) :
    hslToRgb (.num h) (.num (s * 100)) (.num (l * 100)) =
      (JsNum.round (.num ((c + m) * 255)), JsNum.round (.num ((0 + m) * 255)),
        JsNum.round (.num ((x + m) * 255))) := by
  subst hx hm hc
  have ha0 : (5 : ℚ) ≤ h / 60 := by
    rw [le_div_iff₀ (by norm_num : (0:ℚ) < 60)]; linarith
  have ha1 : h / 60 < 6 := by
    rw [div_lt_iff₀ (by norm_num : (0:ℚ) < 60)]; linarith
  simp only [hslToRgb, hue_normalize (show (0:ℚ) ≤ h by linarith) (show h < 360 by linarith),
    clamp_percent hs0 hs1, clamp_percent hl0 hl1,
    num_div (show (60:ℚ) ≠ 0 by norm_num), num_div (show (2:ℚ) ≠ 0 by norm_num),
    num_mod_sub2 (show (0:ℚ) < 2 by norm_num) (show 2 * 2 ≤ h / 60 by linarith)
      (show h / 60 < 3 * 2 by linarith),
    num_mul, num_sub, num_abs, num_add,
    num_lt_false (show (60:ℚ) ≤ h by linarith),
    num_lt_false (show (120:ℚ) ≤ h by linarith),
    num_lt_false (show (180:ℚ) ≤ h by linarith),
    num_lt_false (show (240:ℚ) ≤ h by linarith),
    num_lt_false (show (300:ℚ) ≤ h by linarith),
    Bool.false_eq_true, if_false, if_true]
  have habs : |h / 60 - 2 * 2 - 1| = h / 60 - 5 := by
    rw [show h / 60 - 2 * 2 - 1 = h / 60 - 5 from by ring,
      abs_of_nonneg (by linarith)]
  rw [habs]
  refine congrArg₂ Prod.mk ?_ (congrArg₂ Prod.mk ?_ ?_) <;>
    exact congrArg JsNum.round (congrArg JsNum.num (by ring))

theorem num_max (a b : ℚ) : (JsNum.num a).maxJ (.num b) = .num (max a b) := rfl

theorem num_min (a b : ℚ) : (JsNum.num a).minJ (.num b) = .num (min a b) := rfl

/-- JS `%` on a negative value in `(-n, 0)` keeps the sign of the dividend. -/
theorem num_mod_self_neg {a n : ℚ} (hn : 0 < n) (h0 : -n < a) (h1 : a < 0) :
    (JsNum.num a).modJ (.num n) = .num a := by
  rw [JsNum.modJ, if_neg hn.ne']
  have hd1 : a / n < 0 := div_neg_of_neg_of_pos h1 hn
  have hd0 : -1 < a / n := by
    rw [neg_lt, ← neg_div]
    exact (div_lt_one hn).mpr (by linarith)
  rw [JsNum.truncQ, if_neg (by linarith)]
  have hc : ⌈a / n⌉ = 0 := by
    rw [Int.ceil_eq_zero_iff, Set.mem_Ioc]
    exact ⟨by linarith, by linarith⟩
  rw [hc]
  norm_num

/-- The saturation denominator `1 - |2l - 1|` is positive off the gray axis. -/
theorem D_pos {M m : ℚ} (h0 : 0 ≤ m) (h2 : M ≤ 1) (hlt : m < M) :
    0 < 1 - |2 * ((M + m) / 2) - 1| := by
  have hre : |2 * ((M + m) / 2) - 1| = |M + m - 1| := by
    rw [show 2 * ((M + m) / 2) - 1 = M + m - 1 from by ring]
  rw [hre]
  have habs : |M + m - 1| < 1 := abs_lt.mpr ⟨by linarith, by linarith⟩
  linarith

/-- The saturation value lies in [0, 1]. -/
theorem s_mem {M m : ℚ} (h0 : 0 ≤ m) (h2 : M ≤ 1) (hlt : m < M) :
    0 ≤ (M - m) / (1 - |2 * ((M + m) / 2) - 1|) ∧
      (M - m) / (1 - |2 * ((M + m) / 2) - 1|) ≤ 1 := by
  have hD := D_pos h0 h2 hlt
  refine ⟨div_nonneg (by linarith) hD.le, ?_⟩
  rw [div_le_one hD]
  have hre : |2 * ((M + m) / 2) - 1| = |M + m - 1| := by
    rw [show 2 * ((M + m) / 2) - 1 = M + m - 1 from by ring]
  rw [hre]
  rcases abs_cases (M + m - 1) with ⟨heq, -⟩ | ⟨heq, -⟩ <;> rw [heq] <;> linarith

/-- `c = (1 - |2l - 1|) * s` recovers the chroma `M - m`. -/
theorem c_formula {M m : ℚ} (h0 : 0 ≤ m) (h2 : M ≤ 1) (hlt : m < M) :
    M - m = (1 - |2 * ((M + m) / 2) - 1|) *
      ((M - m) / (1 - |2 * ((M + m) / 2) - 1|)) := by
  have hD := (D_pos h0 h2 hlt).ne'
  rw [show 2 * ((M + m) / 2) - 1 = M + m - 1 from by ring] at hD ⊢
  rw [mul_comm, div_mul_cancel₀ _ hD]

/-- Canonical channel bounds. -/
theorem divQ_mem {a : ℕ} (h : a ≤ 255) : 0 ≤ (a : ℚ) / 255 ∧ (a : ℚ) / 255 ≤ 1 :=
  ⟨by positivity, by
    rw [div_le_one (by norm_num : (0:ℚ) < 255)]
    exact_mod_cast h⟩

/-- Channel order transfers to the canonical scale. -/
theorem divQ_le {a b : ℕ} (h : a ≤ b) : (a : ℚ) / 255 ≤ (b : ℚ) / 255 := by
  have hq : (a : ℚ) ≤ (b : ℚ) := by exact_mod_cast h
  gcongr

/-- Strict channel order transfers to the canonical scale. -/
theorem divQ_lt {a b : ℕ} (h : a < b) : (a : ℚ) / 255 < (b : ℚ) / 255 := by
  have hq : (a : ℚ) < (b : ℚ) := by exact_mod_cast h
  gcongr

/-- Exact round trip, red maximal, green middle (first sextant). -/
theorem roundTrip_exact_max_r_mid_g (r g b : ℕ) (hr : r ≤ 255) (hg : g ≤ 255) (hb : b ≤ 255)
    (hbg : b ≤ g) (hgr : g < r) :
    roundTripExact (.num ((r : ℕ) : ℚ)) (.num ((g : ℕ) : ℚ)) (.num ((b : ℕ) : ℚ)) =
      (.num ((r : ℕ) : ℚ), .num ((g : ℕ) : ℚ), .num ((b : ℕ) : ℚ)) := by
  obtain ⟨hr0, hr1⟩ := divQ_mem hr
  obtain ⟨hg0, hg1⟩ := divQ_mem hg
  obtain ⟨hb0, hb1⟩ := divQ_mem hb
  have hcr : clamp01 ((JsNum.num ((r : ℕ) : ℚ)).div (.num 255)) =
      .num ((r : ℚ) / 255) := by
    rw [num_div (by norm_num : (255:ℚ) ≠ 0)]
    exact clamp01_of_mem hr0 hr1
  have hcg : clamp01 ((JsNum.num ((g : ℕ) : ℚ)).div (.num 255)) =
      .num ((g : ℚ) / 255) := by
    rw [num_div (by norm_num : (255:ℚ) ≠ 0)]
    exact clamp01_of_mem hg0 hg1
  have hcb : clamp01 ((JsNum.num ((b : ℕ) : ℚ)).div (.num 255)) =
      .num ((b : ℚ) / 255) := by
    rw [num_div (by norm_num : (255:ℚ) ≠ 0)]
    exact clamp01_of_mem hb0 hb1
  have hbgQ := divQ_le hbg
  have hgrQ := divQ_lt hgr
  have hbrQ : (b : ℚ) / 255 < (r : ℚ) / 255 := lt_of_le_of_lt hbgQ hgrQ
  have hδ : (r : ℚ) / 255 - (b : ℚ) / 255 ≠ 0 := sub_ne_zero.mpr hbrQ.ne'
  have hδpos : (0:ℚ) < (r : ℚ) / 255 - (b : ℚ) / 255 := sub_pos.mpr hbrQ
  have hD := D_pos hb0 hr1 hbrQ
  have ht0 : (0:ℚ) ≤ ((g : ℚ) / 255 - (b : ℚ) / 255) / ((r : ℚ) / 255 - (b : ℚ) / 255) :=
    div_nonneg (sub_nonneg.mpr hbgQ) hδpos.le
  have ht1 : ((g : ℚ) / 255 - (b : ℚ) / 255) / ((r : ℚ) / 255 - (b : ℚ) / 255) < 1 :=
    (div_lt_one hδpos).mpr (by linarith)
  have hcore : rgbToHslCore (.num ((r : ℕ) : ℚ)) (.num ((g : ℕ) : ℚ))
      (.num ((b : ℕ) : ℚ)) =
      (.num (((g : ℚ) / 255 - (b : ℚ) / 255) / ((r : ℚ) / 255 - (b : ℚ) / 255) * 60),
       .num (((r : ℚ) / 255 - (b : ℚ) / 255) /
         (1 - |2 * (((r : ℚ) / 255 + (b : ℚ) / 255) / 2) - 1|)),
       .num (((r : ℚ) / 255 + (b : ℚ) / 255) / 2)) := by
    simp only [rgbToHslCore, hcr, hcg, hcb, num_max, num_min,
      max_eq_left hbgQ, max_eq_left hgrQ.le, min_eq_right hbgQ,
      min_eq_right (hbgQ.trans hgrQ.le),
      num_sub, num_steq_false hδ, Bool.not_false,
      num_steq_true (rfl : (r : ℚ) / 255 = (r : ℚ) / 255),
      num_div hδ, num_div hD.ne', num_div (show (2:ℚ) ≠ 0 from by norm_num),
      num_mod_self ht0 (show ((g : ℚ) / 255 - (b : ℚ) / 255) /
        ((r : ℚ) / 255 - (b : ℚ) / 255) < 6 by linarith),
      num_mul, num_add, num_abs,
      num_lt_false (show (0:ℚ) ≤ ((g : ℚ) / 255 - (b : ℚ) / 255) /
        ((r : ℚ) / 255 - (b : ℚ) / 255) * 60 from by positivity),
      Bool.false_eq_true, if_false, if_true]
  simp only [roundTripExact, hcore, num_mul]
  rw [hslToRgb_sector0 (mul_nonneg ht0 (by norm_num))
    (by nlinarith)
    (s_mem hb0 hr1 hbrQ).1 (s_mem hb0 hr1 hbrQ).2
    (by positivity)
    (by rw [div_le_one (by norm_num : (0:ℚ) < 2)]; linarith)
    (c_formula hb0 hr1 hbrQ)
    (show (g : ℚ) / 255 - (b : ℚ) / 255 =
      ((r : ℚ) / 255 - (b : ℚ) / 255) *
        ((((g : ℚ) / 255 - (b : ℚ) / 255) / ((r : ℚ) / 255 - (b : ℚ) / 255) * 60) / 60)
      from by
        rw [mul_div_cancel_right₀ _ (show (60:ℚ) ≠ 0 from by norm_num), mul_comm,
          div_mul_cancel₀ _ hδ])
    (show (b : ℚ) / 255 = ((r : ℚ) / 255 + (b : ℚ) / 255) / 2 -
      ((r : ℚ) / 255 - (b : ℚ) / 255) / 2 from by ring)]
  refine congrArg₂ Prod.mk ?_ (congrArg₂ Prod.mk ?_ ?_)
  · rw [show ((r : ℚ) / 255 - (b : ℚ) / 255 + (b : ℚ) / 255) = (r : ℚ) / 255
      from by ring]
    exact round_byte hr
  · rw [show ((g : ℚ) / 255 - (b : ℚ) / 255 + (b : ℚ) / 255) = (g : ℚ) / 255
      from by ring]
    exact round_byte hg
  · rw [show ((0:ℚ) + (b : ℚ) / 255) = (b : ℚ) / 255 from by ring]
    exact round_byte hb


/-- Exact round trip on the gray axis (zero chroma). -/
theorem roundTrip_exact_gray (r : ℕ) (hr : r ≤ 255) :
    roundTripExact (.num ((r : ℕ) : ℚ)) (.num ((r : ℕ) : ℚ)) (.num ((r : ℕ) : ℚ)) =
      (.num ((r : ℕ) : ℚ), .num ((r : ℕ) : ℚ), .num ((r : ℕ) : ℚ)) := by
  obtain ⟨hr0, hr1⟩ := divQ_mem hr
  have hcr : clamp01 ((JsNum.num ((r : ℕ) : ℚ)).div (.num 255)) =
      .num ((r : ℚ) / 255) := by
    rw [num_div (by norm_num : (255:ℚ) ≠ 0)]
    exact clamp01_of_mem hr0 hr1
  have hcore : rgbToHslCore (.num ((r : ℕ) : ℚ)) (.num ((r : ℕ) : ℚ))
      (.num ((r : ℕ) : ℚ)) =
      (.num 0, .num 0, .num (((r : ℚ) / 255 + (r : ℚ) / 255) / 2)) := by
    simp only [rgbToHslCore, hcr, num_max, num_min, max_self, min_self, num_sub,
      num_steq_true (show (r : ℚ) / 255 - (r : ℚ) / 255 = 0 from by ring),
      Bool.not_true, num_div (show (2:ℚ) ≠ 0 from by norm_num),
      num_add, num_mul, num_abs,
      Bool.false_eq_true, if_false, if_true]
  simp only [roundTripExact, hcore, num_mul]
  rw [hslToRgb_sector0 le_rfl (by norm_num : (0:ℚ) < 60)
    le_rfl zero_le_one
    (by positivity)
    (by rw [div_le_one (by norm_num : (0:ℚ) < 2)]; linarith)
    (show (0:ℚ) = (1 - |2 * (((r : ℚ) / 255 + (r : ℚ) / 255) / 2) - 1|) * 0
      from by ring)
    (show (0:ℚ) = 0 * ((0:ℚ) / 60) from by norm_num)
    (show ((r : ℚ) / 255 + (r : ℚ) / 255) / 2 =
      ((r : ℚ) / 255 + (r : ℚ) / 255) / 2 - 0 / 2 from by ring)]
  refine congrArg₂ Prod.mk ?_ (congrArg₂ Prod.mk ?_ ?_) <;>
    rw [show ((0:ℚ) + ((r : ℚ) / 255 + (r : ℚ) / 255) / 2) = (r : ℚ) / 255
      from by ring] <;>
    exact round_byte hr

/-- Exact round trip with a red-green tie at the maximum. -/
theorem roundTrip_exact_max_rg (g b : ℕ) (hg : g ≤ 255) (hb : b ≤ 255) (hblt : b < g) :
    roundTripExact (.num ((g : ℕ) : ℚ)) (.num ((g : ℕ) : ℚ)) (.num ((b : ℕ) : ℚ)) =
      (.num ((g : ℕ) : ℚ), .num ((g : ℕ) : ℚ), .num ((b : ℕ) : ℚ)) := by
  obtain ⟨hg0, hg1⟩ := divQ_mem hg
  obtain ⟨hb0, hb1⟩ := divQ_mem hb
  have hcg : clamp01 ((JsNum.num ((g : ℕ) : ℚ)).div (.num 255)) =
      .num ((g : ℚ) / 255) := by
    rw [num_div (by norm_num : (255:ℚ) ≠ 0)]
    exact clamp01_of_mem hg0 hg1
  have hcb : clamp01 ((JsNum.num ((b : ℕ) : ℚ)).div (.num 255)) =
      .num ((b : ℚ) / 255) := by
    rw [num_div (by norm_num : (255:ℚ) ≠ 0)]
    exact clamp01_of_mem hb0 hb1
  have hbgQ : (b : ℚ) / 255 < (g : ℚ) / 255 := divQ_lt hblt
  have hδ : (g : ℚ) / 255 - (b : ℚ) / 255 ≠ 0 := sub_ne_zero.mpr hbgQ.ne'
  have hD := D_pos hb0 hg1 hbgQ
  have hcore : rgbToHslCore (.num ((g : ℕ) : ℚ)) (.num ((g : ℕ) : ℚ))
      (.num ((b : ℕ) : ℚ)) =
      (.num (((g : ℚ) / 255 - (b : ℚ) / 255) / ((g : ℚ) / 255 - (b : ℚ) / 255) * 60),
       .num (((g : ℚ) / 255 - (b : ℚ) / 255) /
         (1 - |2 * (((g : ℚ) / 255 + (b : ℚ) / 255) / 2) - 1|)),
       .num (((g : ℚ) / 255 + (b : ℚ) / 255) / 2)) := by
    simp only [rgbToHslCore, hcg, hcb, num_max, num_min,
      max_eq_left hbgQ.le, max_self, min_eq_right hbgQ.le, min_self,
      num_sub, num_steq_false hδ, Bool.not_false,
      num_steq_true (rfl : (g : ℚ) / 255 = (g : ℚ) / 255),
      num_div hδ, num_div hD.ne', num_div (show (2:ℚ) ≠ 0 from by norm_num),
      num_mod_self (show (0:ℚ) ≤ ((g : ℚ) / 255 - (b : ℚ) / 255) /
          ((g : ℚ) / 255 - (b : ℚ) / 255) from by rw [div_self hδ]; norm_num)
        (show ((g : ℚ) / 255 - (b : ℚ) / 255) /
          ((g : ℚ) / 255 - (b : ℚ) / 255) < 6 from by rw [div_self hδ]; norm_num),
      num_mul, num_add, num_abs,
      num_lt_false (show (0:ℚ) ≤ ((g : ℚ) / 255 - (b : ℚ) / 255) /
        ((g : ℚ) / 255 - (b : ℚ) / 255) * 60 from by rw [div_self hδ]; norm_num),
      Bool.false_eq_true, if_false, if_true]
  simp only [roundTripExact, hcore, num_mul]
  rw [hslToRgb_sector1
    (by rw [div_self hδ]; norm_num)
    (by rw [div_self hδ]; norm_num)
    (s_mem hb0 hg1 hbgQ).1 (s_mem hb0 hg1 hbgQ).2
    (by positivity)
    (by rw [div_le_one (by norm_num : (0:ℚ) < 2)]; linarith)
    (c_formula hb0 hg1 hbgQ)
    (show (g : ℚ) / 255 - (b : ℚ) / 255 =
      ((g : ℚ) / 255 - (b : ℚ) / 255) *
        (2 - (((g : ℚ) / 255 - (b : ℚ) / 255) / ((g : ℚ) / 255 - (b : ℚ) / 255) * 60) / 60)
      from by rw [div_self hδ]; norm_num)
    (show (b : ℚ) / 255 = ((g : ℚ) / 255 + (b : ℚ) / 255) / 2 -
      ((g : ℚ) / 255 - (b : ℚ) / 255) / 2 from by ring)]
  refine congrArg₂ Prod.mk ?_ (congrArg₂ Prod.mk ?_ ?_)
  · rw [show ((g : ℚ) / 255 - (b : ℚ) / 255 + (b : ℚ) / 255) = (g : ℚ) / 255
      from by ring]
    exact round_byte hg
  · rw [show ((g : ℚ) / 255 - (b : ℚ) / 255 + (b : ℚ) / 255) = (g : ℚ) / 255
      from by ring]
    exact round_byte hg
  · rw [show ((0:ℚ) + (b : ℚ) / 255) = (b : ℚ) / 255 from by ring]
    exact round_byte hb

/-- Exact round trip, red maximal, blue middle (sixth sextant). -/
theorem roundTrip_exact_max_r_mid_b (r g b : ℕ) (hr : r ≤ 255) (hg : g ≤ 255) (hb : b ≤ 255)
    (hgb : g < b) (hbr : b ≤ r) :
    roundTripExact (.num ((r : ℕ) : ℚ)) (.num ((g : ℕ) : ℚ)) (.num ((b : ℕ) : ℚ)) =
      (.num ((r : ℕ) : ℚ), .num ((g : ℕ) : ℚ), .num ((b : ℕ) : ℚ)) := by
  obtain ⟨hr0, hr1⟩ := divQ_mem hr
  obtain ⟨hg0, hg1⟩ := divQ_mem hg
  obtain ⟨hb0, hb1⟩ := divQ_mem hb
  have hcr : clamp01 ((JsNum.num ((r : ℕ) : ℚ)).div (.num 255)) =
      .num ((r : ℚ) / 255) := by
    rw [num_div (by norm_num : (255:ℚ) ≠ 0)]
    exact clamp01_of_mem hr0 hr1
  have hcg : clamp01 ((JsNum.num ((g : ℕ) : ℚ)).div (.num 255)) =
      .num ((g : ℚ) / 255) := by
    rw [num_div (by norm_num : (255:ℚ) ≠ 0)]
    exact clamp01_of_mem hg0 hg1
  have hcb : clamp01 ((JsNum.num ((b : ℕ) : ℚ)).div (.num 255)) =
      .num ((b : ℚ) / 255) := by
    rw [num_div (by norm_num : (255:ℚ) ≠ 0)]
    exact clamp01_of_mem hb0 hb1
  have hgbQ : (g : ℚ) / 255 < (b : ℚ) / 255 := divQ_lt hgb
  have hbrQ : (b : ℚ) / 255 ≤ (r : ℚ) / 255 := divQ_le hbr
  have hgrQ : (g : ℚ) / 255 < (r : ℚ) / 255 := lt_of_lt_of_le hgbQ hbrQ
  have hδ : (r : ℚ) / 255 - (g : ℚ) / 255 ≠ 0 := sub_ne_zero.mpr hgrQ.ne'
  have hδpos : (0:ℚ) < (r : ℚ) / 255 - (g : ℚ) / 255 := sub_pos.mpr hgrQ
  have hD := D_pos hg0 hr1 hgrQ
  have ht1 : ((g : ℚ) / 255 - (b : ℚ) / 255) / ((r : ℚ) / 255 - (g : ℚ) / 255) < 0 :=
    div_neg_of_neg_of_pos (by linarith) hδpos
  have ht0 : -1 ≤ ((g : ℚ) / 255 - (b : ℚ) / 255) / ((r : ℚ) / 255 - (g : ℚ) / 255) := by
    rw [neg_le, ← neg_div]
    rw [div_le_one hδpos]
    linarith
  have hcore : rgbToHslCore (.num ((r : ℕ) : ℚ)) (.num ((g : ℕ) : ℚ))
      (.num ((b : ℕ) : ℚ)) =
      (.num (((g : ℚ) / 255 - (b : ℚ) / 255) / ((r : ℚ) / 255 - (g : ℚ) / 255) * 60 +
        360),
       .num (((r : ℚ) / 255 - (g : ℚ) / 255) /
         (1 - |2 * (((r : ℚ) / 255 + (g : ℚ) / 255) / 2) - 1|)),
       .num (((r : ℚ) / 255 + (g : ℚ) / 255) / 2)) := by
    simp only [rgbToHslCore, hcr, hcg, hcb, num_max, num_min,
      max_eq_right hgbQ.le, max_eq_left hbrQ, min_eq_left hgbQ.le,
      min_eq_right hgrQ.le,
      num_sub, num_steq_false hδ, Bool.not_false,
      num_steq_true (rfl : (r : ℚ) / 255 = (r : ℚ) / 255),
      num_div hδ, num_div hD.ne', num_div (show (2:ℚ) ≠ 0 from by norm_num),
      num_mod_self_neg (show (0:ℚ) < 6 from by norm_num)
        (show (-6:ℚ) < ((g : ℚ) / 255 - (b : ℚ) / 255) /
          ((r : ℚ) / 255 - (g : ℚ) / 255) from by linarith) ht1,
      num_mul, num_add, num_abs,
      num_lt_true (show ((g : ℚ) / 255 - (b : ℚ) / 255) /
          ((r : ℚ) / 255 - (g : ℚ) / 255) * 60 < 0 from by nlinarith),
      Bool.false_eq_true, if_false, if_true]
  simp only [roundTripExact, hcore, num_mul]
  rw [hslToRgb_sector5
    (by nlinarith)
    (by nlinarith)
    (s_mem hg0 hr1 hgrQ).1 (s_mem hg0 hr1 hgrQ).2
    (by positivity)
    (by rw [div_le_one (by norm_num : (0:ℚ) < 2)]; linarith)
    (c_formula hg0 hr1 hgrQ)
    (show (b : ℚ) / 255 - (g : ℚ) / 255 =
      ((r : ℚ) / 255 - (g : ℚ) / 255) *
        (6 - (((g : ℚ) / 255 - (b : ℚ) / 255) / ((r : ℚ) / 255 - (g : ℚ) / 255) * 60 +
          360) / 60)
      from by
        rw [add_div, mul_div_cancel_right₀ _ (show (60:ℚ) ≠ 0 from by norm_num),
          show (360:ℚ) / 60 = 6 from by norm_num,
          show (6:ℚ) - (((g : ℚ) / 255 - (b : ℚ) / 255) /
            ((r : ℚ) / 255 - (g : ℚ) / 255) + 6) =
            -(((g : ℚ) / 255 - (b : ℚ) / 255) / ((r : ℚ) / 255 - (g : ℚ) / 255))
          from by ring,
          mul_neg, mul_comm, div_mul_cancel₀ _ hδ, neg_sub])
    (show (g : ℚ) / 255 = ((r : ℚ) / 255 + (g : ℚ) / 255) / 2 -
      ((r : ℚ) / 255 - (g : ℚ) / 255) / 2 from by ring)]
  refine congrArg₂ Prod.mk ?_ (congrArg₂ Prod.mk ?_ ?_)
  · rw [show ((r : ℚ) / 255 - (g : ℚ) / 255 + (g : ℚ) / 255) = (r : ℚ) / 255
      from by ring]
    exact round_byte hr
  · rw [show ((0:ℚ) + (g : ℚ) / 255) = (g : ℚ) / 255 from by ring]
    exact round_byte hg
  · rw [show ((b : ℚ) / 255 - (g : ℚ) / 255 + (g : ℚ) / 255) = (b : ℚ) / 255
      from by ring]
    exact round_byte hb


/-- Exact round trip, green maximal, blue minimal (second sextant). -/
theorem roundTrip_exact_max_g_min_b (r g b : ℕ) (hr : r ≤ 255) (hg : g ≤ 255) (hb : b ≤ 255)
    (hrg : r < g) (hbg : b ≤ g) (hbr : b < r) :
    roundTripExact (.num ((r : ℕ) : ℚ)) (.num ((g : ℕ) : ℚ)) (.num ((b : ℕ) : ℚ)) =
      (.num ((r : ℕ) : ℚ), .num ((g : ℕ) : ℚ), .num ((b : ℕ) : ℚ)) := by
  obtain ⟨hr0, hr1⟩ := divQ_mem hr
  obtain ⟨hg0, hg1⟩ := divQ_mem hg
  obtain ⟨hb0, hb1⟩ := divQ_mem hb
  have hcr : clamp01 ((JsNum.num ((r : ℕ) : ℚ)).div (.num 255)) =
      .num ((r : ℚ) / 255) := by
    rw [num_div (by norm_num : (255:ℚ) ≠ 0)]
    exact clamp01_of_mem hr0 hr1
  have hcg : clamp01 ((JsNum.num ((g : ℕ) : ℚ)).div (.num 255)) =
      .num ((g : ℚ) / 255) := by
    rw [num_div (by norm_num : (255:ℚ) ≠ 0)]
    exact clamp01_of_mem hg0 hg1
  have hcb : clamp01 ((JsNum.num ((b : ℕ) : ℚ)).div (.num 255)) =
      .num ((b : ℚ) / 255) := by
    rw [num_div (by norm_num : (255:ℚ) ≠ 0)]
    exact clamp01_of_mem hb0 hb1
  have hrgQ : (r : ℚ) / 255 < (g : ℚ) / 255 := divQ_lt hrg
  have hbgQ : (b : ℚ) / 255 ≤ (g : ℚ) / 255 := divQ_le hbg
  have hbrQ : (b : ℚ) / 255 < (r : ℚ) / 255 := divQ_lt hbr
  have hbgQ2 : (b : ℚ) / 255 < (g : ℚ) / 255 := lt_trans hbrQ hrgQ
  have hδ : (g : ℚ) / 255 - (b : ℚ) / 255 ≠ 0 := sub_ne_zero.mpr hbgQ2.ne'
  have hδpos : (0:ℚ) < (g : ℚ) / 255 - (b : ℚ) / 255 := sub_pos.mpr hbgQ2
  have hD := D_pos hb0 hg1 hbgQ2
  have hu1 : ((b : ℚ) / 255 - (r : ℚ) / 255) / ((g : ℚ) / 255 - (b : ℚ) / 255) < 0 :=
    div_neg_of_neg_of_pos (by linarith) hδpos
  have hu0 : -1 ≤ ((b : ℚ) / 255 - (r : ℚ) / 255) /
      ((g : ℚ) / 255 - (b : ℚ) / 255) := by
    rw [neg_le, ← neg_div, div_le_one hδpos]
    linarith
  have hcore : rgbToHslCore (.num ((r : ℕ) : ℚ)) (.num ((g : ℕ) : ℚ))
      (.num ((b : ℕ) : ℚ)) =
      (.num ((((b : ℚ) / 255 - (r : ℚ) / 255) / ((g : ℚ) / 255 - (b : ℚ) / 255) + 2) *
        60),
       .num (((g : ℚ) / 255 - (b : ℚ) / 255) /
         (1 - |2 * (((g : ℚ) / 255 + (b : ℚ) / 255) / 2) - 1|)),
       .num (((g : ℚ) / 255 + (b : ℚ) / 255) / 2)) := by
    simp only [rgbToHslCore, hcr, hcg, hcb, num_max, num_min,
      max_eq_left hbgQ, max_eq_right hrgQ.le, min_eq_right hbgQ,
      min_eq_right hbrQ.le,
      num_sub, num_steq_false hδ, Bool.not_false,
      num_steq_false hrgQ.ne',
      num_steq_true (rfl : (g : ℚ) / 255 = (g : ℚ) / 255),
      num_div hδ, num_div hD.ne', num_div (show (2:ℚ) ≠ 0 from by norm_num),
      num_mul, num_add, num_abs,
      num_lt_false (show (0:ℚ) ≤ (((b : ℚ) / 255 - (r : ℚ) / 255) /
        ((g : ℚ) / 255 - (b : ℚ) / 255) + 2) * 60 from by nlinarith),
      Bool.false_eq_true, if_false, if_true]
  simp only [roundTripExact, hcore, num_mul]
  rw [hslToRgb_sector1
    (by nlinarith)
    (by nlinarith)
    (s_mem hb0 hg1 hbgQ2).1 (s_mem hb0 hg1 hbgQ2).2
    (by positivity)
    (by rw [div_le_one (by norm_num : (0:ℚ) < 2)]; linarith)
    (c_formula hb0 hg1 hbgQ2)
    (show (r : ℚ) / 255 - (b : ℚ) / 255 =
      ((g : ℚ) / 255 - (b : ℚ) / 255) *
        (2 - ((((b : ℚ) / 255 - (r : ℚ) / 255) / ((g : ℚ) / 255 - (b : ℚ) / 255) + 2) *
          60) / 60)
      from by
        rw [mul_div_cancel_right₀ _ (show (60:ℚ) ≠ 0 from by norm_num),
          show (2:ℚ) - (((b : ℚ) / 255 - (r : ℚ) / 255) /
            ((g : ℚ) / 255 - (b : ℚ) / 255) + 2) =
            -(((b : ℚ) / 255 - (r : ℚ) / 255) / ((g : ℚ) / 255 - (b : ℚ) / 255))
          from by ring,
          mul_neg, mul_comm, div_mul_cancel₀ _ hδ, neg_sub])
    (show (b : ℚ) / 255 = ((g : ℚ) / 255 + (b : ℚ) / 255) / 2 -
      ((g : ℚ) / 255 - (b : ℚ) / 255) / 2 from by ring)]
  refine congrArg₂ Prod.mk ?_ (congrArg₂ Prod.mk ?_ ?_)
  · rw [show ((r : ℚ) / 255 - (b : ℚ) / 255 + (b : ℚ) / 255) = (r : ℚ) / 255
      from by ring]
    exact round_byte hr
  · rw [show ((g : ℚ) / 255 - (b : ℚ) / 255 + (b : ℚ) / 255) = (g : ℚ) / 255
      from by ring]
    exact round_byte hg
  · rw [show ((0:ℚ) + (b : ℚ) / 255) = (b : ℚ) / 255 from by ring]
    exact round_byte hb

/-- Exact round trip, green maximal, red minimal (third sextant). -/
theorem roundTrip_exact_max_g_min_r (r g b : ℕ) (hr : r ≤ 255) (hg : g ≤ 255) (hb : b ≤ 255)
    (hrg : r < g) (hrb : r ≤ b) (hbg2 : b < g) :
    roundTripExact (.num ((r : ℕ) : ℚ)) (.num ((g : ℕ) : ℚ)) (.num ((b : ℕ) : ℚ)) =
      (.num ((r : ℕ) : ℚ), .num ((g : ℕ) : ℚ), .num ((b : ℕ) : ℚ)) := by
  obtain ⟨hr0, hr1⟩ := divQ_mem hr
  obtain ⟨hg0, hg1⟩ := divQ_mem hg
  obtain ⟨hb0, hb1⟩ := divQ_mem hb
  have hcr : clamp01 ((JsNum.num ((r : ℕ) : ℚ)).div (.num 255)) =
      .num ((r : ℚ) / 255) := by
    rw [num_div (by norm_num : (255:ℚ) ≠ 0)]
    exact clamp01_of_mem hr0 hr1
  have hcg : clamp01 ((JsNum.num ((g : ℕ) : ℚ)).div (.num 255)) =
      .num ((g : ℚ) / 255) := by
    rw [num_div (by norm_num : (255:ℚ) ≠ 0)]
    exact clamp01_of_mem hg0 hg1
  have hcb : clamp01 ((JsNum.num ((b : ℕ) : ℚ)).div (.num 255)) =
      .num ((b : ℚ) / 255) := by
    rw [num_div (by norm_num : (255:ℚ) ≠ 0)]
    exact clamp01_of_mem hb0 hb1
  have hrgQ : (r : ℚ) / 255 < (g : ℚ) / 255 := divQ_lt hrg
  have hrbQ : (r : ℚ) / 255 ≤ (b : ℚ) / 255 := divQ_le hrb
  have hbgQ : (b : ℚ) / 255 < (g : ℚ) / 255 := divQ_lt hbg2
  have hδ : (g : ℚ) / 255 - (r : ℚ) / 255 ≠ 0 := sub_ne_zero.mpr hrgQ.ne'
  have hδpos : (0:ℚ) < (g : ℚ) / 255 - (r : ℚ) / 255 := sub_pos.mpr hrgQ
  have hD := D_pos hr0 hg1 hrgQ
  have hu0 : (0:ℚ) ≤ ((b : ℚ) / 255 - (r : ℚ) / 255) /
      ((g : ℚ) / 255 - (r : ℚ) / 255) := div_nonneg (by linarith) hδpos.le
  have hu1 : ((b : ℚ) / 255 - (r : ℚ) / 255) / ((g : ℚ) / 255 - (r : ℚ) / 255) < 1 :=
    (div_lt_one hδpos).mpr (by linarith)
  have hcore : rgbToHslCore (.num ((r : ℕ) : ℚ)) (.num ((g : ℕ) : ℚ))
      (.num ((b : ℕ) : ℚ)) =
      (.num ((((b : ℚ) / 255 - (r : ℚ) / 255) / ((g : ℚ) / 255 - (r : ℚ) / 255) + 2) *
        60),
       .num (((g : ℚ) / 255 - (r : ℚ) / 255) /
         (1 - |2 * (((g : ℚ) / 255 + (r : ℚ) / 255) / 2) - 1|)),
       .num (((g : ℚ) / 255 + (r : ℚ) / 255) / 2)) := by
    simp only [rgbToHslCore, hcr, hcg, hcb, num_max, num_min,
      max_eq_left hbgQ.le, max_eq_right hrgQ.le, min_eq_right hbgQ.le,
      min_eq_left hrbQ,
      num_sub, num_steq_false hδ, Bool.not_false,
      num_steq_false hrgQ.ne',
      num_steq_true (rfl : (g : ℚ) / 255 = (g : ℚ) / 255),
      num_div hδ, num_div hD.ne', num_div (show (2:ℚ) ≠ 0 from by norm_num),
      num_mul, num_add, num_abs,
      num_lt_false (show (0:ℚ) ≤ (((b : ℚ) / 255 - (r : ℚ) / 255) /
        ((g : ℚ) / 255 - (r : ℚ) / 255) + 2) * 60 from by nlinarith),
      Bool.false_eq_true, if_false, if_true]
  simp only [roundTripExact, hcore, num_mul]
  rw [hslToRgb_sector2
    (by nlinarith)
    (by nlinarith)
    (s_mem hr0 hg1 hrgQ).1 (s_mem hr0 hg1 hrgQ).2
    (by positivity)
    (by rw [div_le_one (by norm_num : (0:ℚ) < 2)]; linarith)
    (c_formula hr0 hg1 hrgQ)
    (show (b : ℚ) / 255 - (r : ℚ) / 255 =
      ((g : ℚ) / 255 - (r : ℚ) / 255) *
        (((((b : ℚ) / 255 - (r : ℚ) / 255) / ((g : ℚ) / 255 - (r : ℚ) / 255) + 2) *
          60) / 60 - 2)
      from by
        rw [mul_div_cancel_right₀ _ (show (60:ℚ) ≠ 0 from by norm_num),
          show ((b : ℚ) / 255 - (r : ℚ) / 255) /
            ((g : ℚ) / 255 - (r : ℚ) / 255) + 2 - 2 =
            ((b : ℚ) / 255 - (r : ℚ) / 255) / ((g : ℚ) / 255 - (r : ℚ) / 255)
          from by ring,
          mul_comm, div_mul_cancel₀ _ hδ])
    (show (r : ℚ) / 255 = ((g : ℚ) / 255 + (r : ℚ) / 255) / 2 -
      ((g : ℚ) / 255 - (r : ℚ) / 255) / 2 from by ring)]
  refine congrArg₂ Prod.mk ?_ (congrArg₂ Prod.mk ?_ ?_)
  · rw [show ((0:ℚ) + (r : ℚ) / 255) = (r : ℚ) / 255 from by ring]
    exact round_byte hr
  · rw [show ((g : ℚ) / 255 - (r : ℚ) / 255 + (r : ℚ) / 255) = (g : ℚ) / 255
      from by ring]
    exact round_byte hg
  · rw [show ((b : ℚ) / 255 - (r : ℚ) / 255 + (r : ℚ) / 255) = (b : ℚ) / 255
      from by ring]
    exact round_byte hb

/-- Exact round trip with a green-blue tie at the maximum. -/
theorem roundTrip_exact_max_gb (r g : ℕ) (hr : r ≤ 255) (hg : g ≤ 255) (hrg : r < g) :
    roundTripExact (.num ((r : ℕ) : ℚ)) (.num ((g : ℕ) : ℚ)) (.num ((g : ℕ) : ℚ)) =
      (.num ((r : ℕ) : ℚ), .num ((g : ℕ) : ℚ), .num ((g : ℕ) : ℚ)) := by
  obtain ⟨hr0, hr1⟩ := divQ_mem hr
  obtain ⟨hg0, hg1⟩ := divQ_mem hg
  have hcr : clamp01 ((JsNum.num ((r : ℕ) : ℚ)).div (.num 255)) =
      .num ((r : ℚ) / 255) := by
    rw [num_div (by norm_num : (255:ℚ) ≠ 0)]
    exact clamp01_of_mem hr0 hr1
  have hcg : clamp01 ((JsNum.num ((g : ℕ) : ℚ)).div (.num 255)) =
      .num ((g : ℚ) / 255) := by
    rw [num_div (by norm_num : (255:ℚ) ≠ 0)]
    exact clamp01_of_mem hg0 hg1
  have hrgQ : (r : ℚ) / 255 < (g : ℚ) / 255 := divQ_lt hrg
  have hδ : (g : ℚ) / 255 - (r : ℚ) / 255 ≠ 0 := sub_ne_zero.mpr hrgQ.ne'
  have hD := D_pos hr0 hg1 hrgQ
  have hcore : rgbToHslCore (.num ((r : ℕ) : ℚ)) (.num ((g : ℕ) : ℚ))
      (.num ((g : ℕ) : ℚ)) =
      (.num ((((g : ℚ) / 255 - (r : ℚ) / 255) / ((g : ℚ) / 255 - (r : ℚ) / 255) + 2) *
        60),
       .num (((g : ℚ) / 255 - (r : ℚ) / 255) /
         (1 - |2 * (((g : ℚ) / 255 + (r : ℚ) / 255) / 2) - 1|)),
       .num (((g : ℚ) / 255 + (r : ℚ) / 255) / 2)) := by
    simp only [rgbToHslCore, hcr, hcg, num_max, num_min,
      max_self, max_eq_right hrgQ.le, min_self, min_eq_left hrgQ.le,
      num_sub, num_steq_false hδ, Bool.not_false,
      num_steq_false hrgQ.ne',
      num_steq_true (rfl : (g : ℚ) / 255 = (g : ℚ) / 255),
      num_div hδ, num_div hD.ne', num_div (show (2:ℚ) ≠ 0 from by norm_num),
      num_mul, num_add, num_abs,
      num_lt_false (show (0:ℚ) ≤ (((g : ℚ) / 255 - (r : ℚ) / 255) /
        ((g : ℚ) / 255 - (r : ℚ) / 255) + 2) * 60 from by
          rw [div_self hδ]; norm_num),
      Bool.false_eq_true, if_false, if_true]
  simp only [roundTripExact, hcore, num_mul]
  rw [hslToRgb_sector3
    (by rw [div_self hδ]; norm_num)
    (by rw [div_self hδ]; norm_num)
    (s_mem hr0 hg1 hrgQ).1 (s_mem hr0 hg1 hrgQ).2
    (by positivity)
    (by rw [div_le_one (by norm_num : (0:ℚ) < 2)]; linarith)
    (c_formula hr0 hg1 hrgQ)
    (show (g : ℚ) / 255 - (r : ℚ) / 255 =
      ((g : ℚ) / 255 - (r : ℚ) / 255) *
        (4 - ((((g : ℚ) / 255 - (r : ℚ) / 255) / ((g : ℚ) / 255 - (r : ℚ) / 255) + 2) *
          60) / 60)
      from by rw [div_self hδ]; norm_num)
    (show (r : ℚ) / 255 = ((g : ℚ) / 255 + (r : ℚ) / 255) / 2 -
      ((g : ℚ) / 255 - (r : ℚ) / 255) / 2 from by ring)]
  refine congrArg₂ Prod.mk ?_ (congrArg₂ Prod.mk ?_ ?_)
  · rw [show ((0:ℚ) + (r : ℚ) / 255) = (r : ℚ) / 255 from by ring]
    exact round_byte hr
  · rw [show ((g : ℚ) / 255 - (r : ℚ) / 255 + (r : ℚ) / 255) = (g : ℚ) / 255
      from by ring]
    exact round_byte hg
  · rw [show ((g : ℚ) / 255 - (r : ℚ) / 255 + (r : ℚ) / 255) = (g : ℚ) / 255
      from by ring]
    exact round_byte hg

/-- Exact round trip, blue maximal, green minimal (fifth sextant). -/
theorem roundTrip_exact_max_b_min_g (r g b : ℕ) (hr : r ≤ 255) (hg : g ≤ 255) (hb : b ≤ 255)
    (hgb : g < b) (hrb : r < b) (hgr : g ≤ r) :
    roundTripExact (.num ((r : ℕ) : ℚ)) (.num ((g : ℕ) : ℚ)) (.num ((b : ℕ) : ℚ)) =
      (.num ((r : ℕ) : ℚ), .num ((g : ℕ) : ℚ), .num ((b : ℕ) : ℚ)) := by
  obtain ⟨hr0, hr1⟩ := divQ_mem hr
  obtain ⟨hg0, hg1⟩ := divQ_mem hg
  obtain ⟨hb0, hb1⟩ := divQ_mem hb
  have hcr : clamp01 ((JsNum.num ((r : ℕ) : ℚ)).div (.num 255)) =
      .num ((r : ℚ) / 255) := by
    rw [num_div (by norm_num : (255:ℚ) ≠ 0)]
    exact clamp01_of_mem hr0 hr1
  have hcg : clamp01 ((JsNum.num ((g : ℕ) : ℚ)).div (.num 255)) =
      .num ((g : ℚ) / 255) := by
    rw [num_div (by norm_num : (255:ℚ) ≠ 0)]
    exact clamp01_of_mem hg0 hg1
  have hcb : clamp01 ((JsNum.num ((b : ℕ) : ℚ)).div (.num 255)) =
      .num ((b : ℚ) / 255) := by
    rw [num_div (by norm_num : (255:ℚ) ≠ 0)]
    exact clamp01_of_mem hb0 hb1
  have hgbQ : (g : ℚ) / 255 < (b : ℚ) / 255 := divQ_lt hgb
  have hrbQ : (r : ℚ) / 255 < (b : ℚ) / 255 := divQ_lt hrb
  have hgrQ : (g : ℚ) / 255 ≤ (r : ℚ) / 255 := divQ_le hgr
  have hδ : (b : ℚ) / 255 - (g : ℚ) / 255 ≠ 0 := sub_ne_zero.mpr hgbQ.ne'
  have hδpos : (0:ℚ) < (b : ℚ) / 255 - (g : ℚ) / 255 := sub_pos.mpr hgbQ
  have hD := D_pos hg0 hb1 hgbQ
  have hv0 : (0:ℚ) ≤ ((r : ℚ) / 255 - (g : ℚ) / 255) /
      ((b : ℚ) / 255 - (g : ℚ) / 255) := div_nonneg (by linarith) hδpos.le
  have hv1 : ((r : ℚ) / 255 - (g : ℚ) / 255) / ((b : ℚ) / 255 - (g : ℚ) / 255) < 1 :=
    (div_lt_one hδpos).mpr (by linarith)
  have hcore : rgbToHslCore (.num ((r : ℕ) : ℚ)) (.num ((g : ℕ) : ℚ))
      (.num ((b : ℕ) : ℚ)) =
      (.num ((((r : ℚ) / 255 - (g : ℚ) / 255) / ((b : ℚ) / 255 - (g : ℚ) / 255) + 4) *
        60),
       .num (((b : ℚ) / 255 - (g : ℚ) / 255) /
         (1 - |2 * (((b : ℚ) / 255 + (g : ℚ) / 255) / 2) - 1|)),
       .num (((b : ℚ) / 255 + (g : ℚ) / 255) / 2)) := by
    simp only [rgbToHslCore, hcr, hcg, hcb, num_max, num_min,
      max_eq_right hgbQ.le, max_eq_right hrbQ.le, min_eq_left hgbQ.le,
      min_eq_right hgrQ,
      num_sub, num_steq_false hδ, Bool.not_false,
      num_steq_false hrbQ.ne', num_steq_false hgbQ.ne',
      num_div hδ, num_div hD.ne', num_div (show (2:ℚ) ≠ 0 from by norm_num),
      num_mul, num_add, num_abs,
      num_lt_false (show (0:ℚ) ≤ (((r : ℚ) / 255 - (g : ℚ) / 255) /
        ((b : ℚ) / 255 - (g : ℚ) / 255) + 4) * 60 from by nlinarith),
      Bool.false_eq_true, if_false, if_true]
  simp only [roundTripExact, hcore, num_mul]
  rw [hslToRgb_sector4
    (by nlinarith)
    (by nlinarith)
    (s_mem hg0 hb1 hgbQ).1 (s_mem hg0 hb1 hgbQ).2
    (by positivity)
    (by rw [div_le_one (by norm_num : (0:ℚ) < 2)]; linarith)
    (c_formula hg0 hb1 hgbQ)
    (show (r : ℚ) / 255 - (g : ℚ) / 255 =
      ((b : ℚ) / 255 - (g : ℚ) / 255) *
        (((((r : ℚ) / 255 - (g : ℚ) / 255) / ((b : ℚ) / 255 - (g : ℚ) / 255) + 4) *
          60) / 60 - 4)
      from by
        rw [mul_div_cancel_right₀ _ (show (60:ℚ) ≠ 0 from by norm_num),
          show ((r : ℚ) / 255 - (g : ℚ) / 255) /
            ((b : ℚ) / 255 - (g : ℚ) / 255) + 4 - 4 =
            ((r : ℚ) / 255 - (g : ℚ) / 255) / ((b : ℚ) / 255 - (g : ℚ) / 255)
          from by ring,
          mul_comm, div_mul_cancel₀ _ hδ])
    (show (g : ℚ) / 255 = ((b : ℚ) / 255 + (g : ℚ) / 255) / 2 -
      ((b : ℚ) / 255 - (g : ℚ) / 255) / 2 from by ring)]
  refine congrArg₂ Prod.mk ?_ (congrArg₂ Prod.mk ?_ ?_)
  · rw [show ((r : ℚ) / 255 - (g : ℚ) / 255 + (g : ℚ) / 255) = (r : ℚ) / 255
      from by ring]
    exact round_byte hr
  · rw [show ((0:ℚ) + (g : ℚ) / 255) = (g : ℚ) / 255 from by ring]
    exact round_byte hg
  · rw [show ((b : ℚ) / 255 - (g : ℚ) / 255 + (g : ℚ) / 255) = (b : ℚ) / 255
      from by ring]
    exact round_byte hb

/-- Exact round trip, blue maximal, red minimal (fourth sextant). -/
theorem roundTrip_exact_max_b_min_r (r g b : ℕ) (hr : r ≤ 255) (hg : g ≤ 255) (hb : b ≤ 255)
    (hgb : g < b) (hrb : r < b) (hrg : r < g) :
    roundTripExact (.num ((r : ℕ) : ℚ)) (.num ((g : ℕ) : ℚ)) (.num ((b : ℕ) : ℚ)) =
      (.num ((r : ℕ) : ℚ), .num ((g : ℕ) : ℚ), .num ((b : ℕ) : ℚ)) := by
  obtain ⟨hr0, hr1⟩ := divQ_mem hr
  obtain ⟨hg0, hg1⟩ := divQ_mem hg
  obtain ⟨hb0, hb1⟩ := divQ_mem hb
  have hcr : clamp01 ((JsNum.num ((r : ℕ) : ℚ)).div (.num 255)) =
      .num ((r : ℚ) / 255) := by
    rw [num_div (by norm_num : (255:ℚ) ≠ 0)]
    exact clamp01_of_mem hr0 hr1
  have hcg : clamp01 ((JsNum.num ((g : ℕ) : ℚ)).div (.num 255)) =
      .num ((g : ℚ) / 255) := by
    rw [num_div (by norm_num : (255:ℚ) ≠ 0)]
    exact clamp01_of_mem hg0 hg1
  have hcb : clamp01 ((JsNum.num ((b : ℕ) : ℚ)).div (.num 255)) =
      .num ((b : ℚ) / 255) := by
    rw [num_div (by norm_num : (255:ℚ) ≠ 0)]
    exact clamp01_of_mem hb0 hb1
  have hgbQ : (g : ℚ) / 255 < (b : ℚ) / 255 := divQ_lt hgb
  have hrbQ : (r : ℚ) / 255 < (b : ℚ) / 255 := divQ_lt hrb
  have hrgQ : (r : ℚ) / 255 < (g : ℚ) / 255 := divQ_lt hrg
  have hδ : (b : ℚ) / 255 - (r : ℚ) / 255 ≠ 0 := sub_ne_zero.mpr hrbQ.ne'
  have hδpos : (0:ℚ) < (b : ℚ) / 255 - (r : ℚ) / 255 := sub_pos.mpr hrbQ
  have hD := D_pos hr0 hb1 hrbQ
  have hv1 : ((r : ℚ) / 255 - (g : ℚ) / 255) / ((b : ℚ) / 255 - (r : ℚ) / 255) < 0 :=
    div_neg_of_neg_of_pos (by linarith) hδpos
  have hv0 : -1 ≤ ((r : ℚ) / 255 - (g : ℚ) / 255) /
      ((b : ℚ) / 255 - (r : ℚ) / 255) := by
    rw [neg_le, ← neg_div, div_le_one hδpos]
    linarith
  have hcore : rgbToHslCore (.num ((r : ℕ) : ℚ)) (.num ((g : ℕ) : ℚ))
      (.num ((b : ℕ) : ℚ)) =
      (.num ((((r : ℚ) / 255 - (g : ℚ) / 255) / ((b : ℚ) / 255 - (r : ℚ) / 255) + 4) *
        60),
       .num (((b : ℚ) / 255 - (r : ℚ) / 255) /
         (1 - |2 * (((b : ℚ) / 255 + (r : ℚ) / 255) / 2) - 1|)),
       .num (((b : ℚ) / 255 + (r : ℚ) / 255) / 2)) := by
    simp only [rgbToHslCore, hcr, hcg, hcb, num_max, num_min,
      max_eq_right hgbQ.le, max_eq_right hrbQ.le, min_eq_left hgbQ.le,
      min_eq_left hrgQ.le,
      num_sub, num_steq_false hδ, Bool.not_false,
      num_steq_false hrbQ.ne', num_steq_false hgbQ.ne',
      num_div hδ, num_div hD.ne', num_div (show (2:ℚ) ≠ 0 from by norm_num),
      num_mul, num_add, num_abs,
      num_lt_false (show (0:ℚ) ≤ (((r : ℚ) / 255 - (g : ℚ) / 255) /
        ((b : ℚ) / 255 - (r : ℚ) / 255) + 4) * 60 from by nlinarith),
      Bool.false_eq_true, if_false, if_true]
  simp only [roundTripExact, hcore, num_mul]
  rw [hslToRgb_sector3
    (by nlinarith)
    (by nlinarith)
    (s_mem hr0 hb1 hrbQ).1 (s_mem hr0 hb1 hrbQ).2
    (by positivity)
    (by rw [div_le_one (by norm_num : (0:ℚ) < 2)]; linarith)
    (c_formula hr0 hb1 hrbQ)
    (show (g : ℚ) / 255 - (r : ℚ) / 255 =
      ((b : ℚ) / 255 - (r : ℚ) / 255) *
        (4 - ((((r : ℚ) / 255 - (g : ℚ) / 255) / ((b : ℚ) / 255 - (r : ℚ) / 255) + 4) *
          60) / 60)
      from by
        rw [mul_div_cancel_right₀ _ (show (60:ℚ) ≠ 0 from by norm_num),
          show (4:ℚ) - (((r : ℚ) / 255 - (g : ℚ) / 255) /
            ((b : ℚ) / 255 - (r : ℚ) / 255) + 4) =
            -(((r : ℚ) / 255 - (g : ℚ) / 255) / ((b : ℚ) / 255 - (r : ℚ) / 255))
          from by ring,
          mul_neg, mul_comm, div_mul_cancel₀ _ hδ, neg_sub])
    (show (r : ℚ) / 255 = ((b : ℚ) / 255 + (r : ℚ) / 255) / 2 -
      ((b : ℚ) / 255 - (r : ℚ) / 255) / 2 from by ring)]
  refine congrArg₂ Prod.mk ?_ (congrArg₂ Prod.mk ?_ ?_)
  · rw [show ((0:ℚ) + (r : ℚ) / 255) = (r : ℚ) / 255 from by ring]
    exact round_byte hr
  · rw [show ((g : ℚ) / 255 - (r : ℚ) / 255 + (r : ℚ) / 255) = (g : ℚ) / 255
      from by ring]
    exact round_byte hg
  · rw [show ((b : ℚ) / 255 - (r : ℚ) / 255 + (r : ℚ) / 255) = (b : ℚ) / 255
      from by ring]
    exact round_byte hb

/-- Claim C5 (amended): for every byte triple (r, g, b), feeding the exact
hue, saturation and lightness computed by `rgbToHsl` — its local values
before the final `Math.round` calls, scaled to the ranges `hslToRgb`
expects — back through `hslToRgb` restores (r, g, b) exactly.  (With the
integer rounding `rgbToHsl` actually performs, the claimed ±1 bound is
false: see the counterexample at (0, 0, 2).) -/
theorem c5_roundtrip_exact_amended (r g b : ℕ) (hr : r ≤ 255) (hg : g ≤ 255)
    (hb : b ≤ 255) :
    roundTripExact (.num ((r : ℕ) : ℚ)) (.num ((g : ℕ) : ℚ)) (.num ((b : ℕ) : ℚ)) =
      (.num ((r : ℕ) : ℚ), .num ((g : ℕ) : ℚ), .num ((b : ℕ) : ℚ)) := by
  by_cases hall : r = g ∧ g = b
  · obtain ⟨h1, h2⟩ := hall
    subst h2
    subst h1
    exact roundTrip_exact_gray r hr
  · by_cases hMr : g ≤ r ∧ b ≤ r
    · obtain ⟨hgr, hbr⟩ := hMr
      by_cases hbg : b ≤ g
      · rcases eq_or_lt_of_le hgr with heq | hlt
        · have hblt : b < g := lt_of_le_of_ne hbg (fun hbe => hall ⟨heq.symm, hbe.symm⟩)
          subst heq
          exact roundTrip_exact_max_rg g b hr hb hblt
        · exact roundTrip_exact_max_r_mid_g r g b hr hg hb hbg hlt
      · exact roundTrip_exact_max_r_mid_b r g b hr hg hb (not_le.mp hbg) hbr
    · by_cases hMg : r ≤ g ∧ b ≤ g
      · obtain ⟨hrg, hbg⟩ := hMg
        have hrg2 : r < g := lt_of_le_of_ne hrg
          (fun he => hMr ⟨Nat.le_of_eq he.symm, he.symm ▸ hbg⟩)
        by_cases hbr2 : b < r
        · exact roundTrip_exact_max_g_min_b r g b hr hg hb hrg2 hbg hbr2
        · have hrb : r ≤ b := not_lt.mp hbr2
          rcases eq_or_lt_of_le hbg with heq2 | hlt2
          · have heq3 : g = b := heq2.symm
            subst heq3
            exact roundTrip_exact_max_gb r g hr hg hrg2
          · exact roundTrip_exact_max_g_min_r r g b hr hg hb hrg2 hrb hlt2
      · have hgb : g < b := by
          by_contra hc
          push_neg at hc
          rcases le_total r g with h1 | h1
          · exact hMg ⟨h1, hc⟩
          · exact hMr ⟨h1, hc.trans h1⟩
        have hrb : r < b := by
          by_contra hc
          push_neg at hc
          exact hMr ⟨(hgb.trans_le hc).le, hc⟩
        rcases le_or_lt g r with hgr2 | hrg2
        · exact roundTrip_exact_max_b_min_g r g b hr hg hb hgb hrb hgr2
        · exact roundTrip_exact_max_b_min_r r g b hr hg hb hgb hrb hrg2

/-- Witness for the amended C5 at the byte triple (10, 200, 30). -/
theorem c5_roundtrip_exact_amended_witness :
    roundTripExact (.num ((10 : ℕ) : ℚ)) (.num ((200 : ℕ) : ℚ))
        (.num ((30 : ℕ) : ℚ)) =
      (.num ((10 : ℕ) : ℚ), .num ((200 : ℕ) : ℚ), .num ((30 : ℕ) : ℚ)) :=
  c5_roundtrip_exact_amended 10 200 30 (by omega) (by omega) (by omega)

/-- `clamp01` always yields NaN or a number in [0, 1]. -/
theorem chanOK_clamp01 (v : JsNum) : chanOK (clamp01 v) := by
  cases v with
  | nan => exact Or.inl rfl
  | num q =>
    refine Or.inr ?_
    show inUnit (.num (min 1 (max 0 q)))
    exact ⟨le_min zero_le_one (le_max_left 0 q), min_le_left _ _⟩

/-- `#setRGBAf` clamps every channel. -/
theorem storeOK_setRGBAf (r g b a : JsNum) : storeOK (setRGBAf r g b a) :=
  ⟨chanOK_clamp01 r, chanOK_clamp01 g, chanOK_clamp01 b, chanOK_clamp01 a⟩

/-- Every store the Hex decoder accepts satisfies the channel invariant. -/
theorem storeOK_setHex {s : String} {st : Store} (h : setHex s = .ok st) :
    storeOK st := by
  rw [setHex] at h
  split at h
  · injection h with h2
    rw [← h2]
    exact storeOK_setRGBAf _ _ _ _
  · injection h with h2
    rw [← h2]
    exact storeOK_setRGBAf _ _ _ _
  · exact Except.noConfusion h

/-- Every store the CSS-RGB decoder accepts satisfies the invariant. -/
theorem storeOK_setCSSRGB {s : String} {st : Store} (h : setCSSRGB s = .ok st) :
    storeOK st := by
  rw [setCSSRGB] at h
  split at h
  · exact Except.noConfusion h
  · injection h with h2
    rw [← h2]
    exact storeOK_setRGBAf _ _ _ _

/-- Every store the CSS-HSL decoder accepts satisfies the invariant. -/
theorem storeOK_setCSSHSL {s : String} {st : Store} (h : setCSSHSL s = .ok st) :
    storeOK st := by
  rw [setCSSHSL] at h
  split at h
  · exact Except.noConfusion h
  · injection h with h2
    rw [← h2]
    exact storeOK_setRGBAf _ _ _ _

/-- Every store the named decoder accepts satisfies the invariant. -/
theorem storeOK_setNamed {resolve : String → String} {name : String}
    {st : Store} (h : setNamed resolve name = .ok st) : storeOK st := by
  rw [setNamed] at h
  split at h
  · exact Except.noConfusion h
  · exact storeOK_setHex h

/-- Every store the dispatcher accepts satisfies the invariant. -/
theorem storeOK_setFrom {resolve : String → String} {inp : CVInput} {st : Store}
    (h : setFrom resolve inp = .ok st) : storeOK st := by
  cases inp with
  | strIn s =>
    rw [setFrom] at h
    split_ifs at h with h1 h2 h3
    · exact storeOK_setHex h
    · exact storeOK_setCSSRGB h
    · exact storeOK_setCSSHSL h
    · exact storeOK_setNamed h
  | numIn v =>
    rw [setFrom] at h
    injection h with h2
    rw [← h2]
    exact storeOK_setRGBAf _ _ _ _
  | arrIn xs =>
    rw [setFrom] at h
    split_ifs at h with h1
    injection h with h2
    rw [← h2]
    exact storeOK_setRGBAf _ _ _ _
  | recIn rec =>
    rw [setFrom] at h
    split at h
    · injection h with h2
      rw [← h2]
      exact storeOK_setRGBAf _ _ _ _
    · split at h
      · injection h with h2
        rw [← h2]
        exact storeOK_setRGBAf _ _ _ _
      · exact Except.noConfusion h

/-- Claim C1 (amended): for every input that constructs successfully,
every canonical channel is either a number in [0, 1] or NaN — and NaN
does occur (see the counterexample), so the claim's stronger form, that
all channels always lie in [0, 1], fails exactly on the
unparsable-CSS-component paths.  The store has no state besides the four
channels (`Store` consists of exactly the fields `r, g, b, a`). -/
theorem c1_invariant_amended (resolve : String → String)
    (input : Option CVInput) (st : Store)
    (h : mkColorValue resolve input = .ok st) : storeOK st := by
  rw [mkColorValue] at h
  exact storeOK_setFrom h

/-- Witness for the amended C1 at the concrete input `#abc`. -/
theorem c1_invariant_amended_witness :
    storeOK ⟨.num (170 / 255), .num (187 / 255), .num (204 / 255), .num 1⟩ :=
  c1_invariant_amended res0 (some (.strIn "#abc"))
    ⟨.num (170 / 255), .num (187 / 255), .num (204 / 255), .num 1⟩ (by decide)

end ConcreteEvaluation

end CV

